import Mathlib

/-!
Verification development for the Chaos rigid-body solver core
(UE 4.23 Chaos: particle store, joint constraints, dynamic spring
constraints, cloth step driver).

The C++ sources are shallowly embedded: machine floats are modelled as
exact rationals, vectors as records of three rationals, quaternions as
records of four rationals using the engine's rotation formula.
Euclidean norms are irrational in general, so every comparison the code
makes on a norm is embedded as the equivalent comparison on the squared
norm (equivalent whenever the threshold is nonnegative, which the
relevant theorems assume).
-/

namespace Chaos

/-- A 3-vector with exact rational components (models `TVector<T,3>`). -/
structure Vec3 where
  x : ℚ
  y : ℚ
  z : ℚ
deriving DecidableEq, Repr

namespace Vec3

def add (a b : Vec3) : Vec3 := ⟨a.x + b.x, a.y + b.y, a.z + b.z⟩

def sub (a b : Vec3) : Vec3 := ⟨a.x - b.x, a.y - b.y, a.z - b.z⟩

def neg (a : Vec3) : Vec3 := ⟨-a.x, -a.y, -a.z⟩

def smul (c : ℚ) (a : Vec3) : Vec3 := ⟨c * a.x, c * a.y, c * a.z⟩

/-- Cross product (models `TVector::CrossProduct`). -/
def cross (a b : Vec3) : Vec3 :=
  ⟨a.y * b.z - a.z * b.y, a.z * b.x - a.x * b.z, a.x * b.y - a.y * b.x⟩

/-- Squared Euclidean norm. The engine's `Size()` is the square root of
this; the embedding only ever compares sizes, which it does on squares. -/
def sizeSq (a : Vec3) : ℚ := a.x * a.x + a.y * a.y + a.z * a.z

def zero : Vec3 := ⟨0, 0, 0⟩

theorem sizeSq_nonneg (a : Vec3) : 0 ≤ a.sizeSq := by
  have hx : 0 ≤ a.x * a.x := mul_self_nonneg _
  have hy : 0 ≤ a.y * a.y := mul_self_nonneg _
  have hz : 0 ≤ a.z * a.z := mul_self_nonneg _
  unfold sizeSq
  linarith

end Vec3

/-- A quaternion with exact rational components (models `TRotation<T,3>`
alias `FQuat`).  The embedding evaluates it only at unit quaternions with
rational coordinates. -/
structure QuatQ where
  x : ℚ
  y : ℚ
  z : ℚ
  w : ℚ
deriving DecidableEq, Repr

namespace QuatQ

/-- Hamilton product; `mul q1 q2` models the engine's `Q1 * Q2`
(apply `Q2`'s rotation first, then `Q1`'s). -/
def mul (a b : QuatQ) : QuatQ :=
  ⟨a.w * b.x + a.x * b.w + a.y * b.z - a.z * b.y,
   a.w * b.y - a.x * b.z + a.y * b.w + a.z * b.x,
   a.w * b.z + a.x * b.y - a.y * b.x + a.z * b.w,
   a.w * b.w - a.x * b.x - a.y * b.y - a.z * b.z⟩

/-- Conjugate.  `FQuat::Inverse` returns the conjugate (the quaternion is
required to be normalized, which the relevant theorems assume). -/
def conj (a : QuatQ) : QuatQ := ⟨-a.x, -a.y, -a.z, a.w⟩

def one : QuatQ := ⟨0, 0, 0, 1⟩

def normSq (a : QuatQ) : ℚ := a.x * a.x + a.y * a.y + a.z * a.z + a.w * a.w

/-- `FQuat::RotateVector`: `V + 2w (Q x V) + 2 Q x (Q x V)` with `Q` the
vector part. -/
def rotateVector (q : QuatQ) (v : Vec3) : Vec3 :=
  let qv : Vec3 := ⟨q.x, q.y, q.z⟩
  let t : Vec3 := Vec3.smul 2 (Vec3.cross qv v)
  Vec3.add v (Vec3.add (Vec3.smul q.w t) (Vec3.cross qv t))

theorem mulConjSelf (b : QuatQ) (h : b.normSq = 1) :
    mul (conj b) b = one := by
  unfold normSq at h
  unfold mul conj one
  simp only [QuatQ.mk.injEq]
  refine ⟨by ring, by ring, by ring, ?_⟩
  ring_nf
  ring_nf at h
  linarith

theorem mulAssoc (a b c : QuatQ) :
    mul (mul a b) c = mul a (mul b c) := by
  unfold mul
  simp only [QuatQ.mk.injEq]
  exact ⟨by ring, by ring, by ring, by ring⟩

theorem mulOneRight (a : QuatQ) : mul a one = a := by
  unfold mul one
  cases a
  simp

end QuatQ

/-- A rigid transform: rotation plus translation
(models `TRigidTransform<T,3>` alias `FTransform`). -/
structure RigidTransformQ where
  t : Vec3
  r : QuatQ
deriving DecidableEq, Repr

namespace RigidTransformQ

/-- `FTransform::TransformPosition`. -/
def transformPosition (f : RigidTransformQ) (v : Vec3) : Vec3 :=
  Vec3.add (f.r.rotateVector v) f.t

/-- `FTransform::InverseTransformPosition`: unrotate `v - t`. -/
def inverseTransformPosition (f : RigidTransformQ) (v : Vec3) : Vec3 :=
  f.r.conj.rotateVector (Vec3.sub v f.t)

/-- `FTransform::TransformVector` (rotation only). -/
def transformVector (f : RigidTransformQ) (v : Vec3) : Vec3 :=
  f.r.rotateVector v

/-- UE transform composition `A * B`: apply `A` first, then `B`. -/
def mulUE (a b : RigidTransformQ) : RigidTransformQ :=
  ⟨Vec3.add (b.r.rotateVector a.t) b.t, QuatQ.mul b.r a.r⟩

/-- `FTransform::Inverse` (for a unit rotation). -/
def inverse (f : RigidTransformQ) : RigidTransformQ :=
  ⟨f.r.conj.rotateVector (Vec3.neg f.t), f.r.conj⟩

end RigidTransformQ

theorem Vec3.addSubCancel (a b : Vec3) : Vec3.add (Vec3.sub a b) b = a := by
  unfold Vec3.add Vec3.sub
  cases a
  simp only [Vec3.mk.injEq]
  exact ⟨by ring, by ring, by ring⟩

/-!
## Joint constraint container (`FPBDJointConstraints`)

From `PBDJointConstraints.cpp`.  Particles are identified by natural
numbers; a body's kinematic state, as seen by `AddConstraint`
(`X()` and `R()`), is a position and a rotation.
-/

/-- The part of a particle handle that `FPBDJointConstraints::AddConstraint`
reads: `X()` and `R()`. -/
structure JointBody where
  x : Vec3
  r : QuatQ
deriving DecidableEq, Repr

/-- The joint-constraint container state used by the `AddConstraint` /
`RemoveConstraints` claims: the parallel arrays `ConstraintParticles`
(pairs of particle ids) and the `ConstraintFrames` member of each
entry of `ConstraintSettings`. -/
structure FPBDJointConstraintsM where
  constraintParticles : List (ℕ × ℕ)
  constraintFrames : List (RigidTransformQ × RigidTransformQ)
deriving DecidableEq, Repr

namespace FPBDJointConstraintsM

def empty : FPBDJointConstraintsM := ⟨[], []⟩

/-- The per-body frame computed by the world-frame overload of
`FPBDJointConstraints::AddConstraint`:
translation `WorldConstraintFrame.GetTranslation() - Particle->X()`,
rotation `WorldConstraintFrame.GetRotation() * Particle->R().Inverse()`. -/
def storedLocalFrame (p : JointBody) (worldFrame : RigidTransformQ) :
    RigidTransformQ :=
  ⟨Vec3.sub worldFrame.t p.x, QuatQ.mul worldFrame.r p.r.conj⟩

/-- `FPBDJointConstraints::AddConstraint(particlePair, WorldConstraintFrame)`:
converts the world frame per body with `storedLocalFrame`, then appends the
constraint (the local-frames overload appends to each parallel array). -/
def addConstraintWorldFrame (c : FPBDJointConstraintsM) (ids : ℕ × ℕ)
    (p0 p1 : JointBody) (worldFrame : RigidTransformQ) :
    FPBDJointConstraintsM :=
  ⟨c.constraintParticles ++ [ids],
   c.constraintFrames ++
     [(storedLocalFrame p0 worldFrame, storedLocalFrame p1 worldFrame)]⟩

/-- `FPBDJointConstraints::RemoveConstraints(RemovedParticles)`: the body of
this member function in the source is empty, so the container is returned
unchanged. -/
def removeConstraints (c : FPBDJointConstraintsM) (_removedParticles : List ℕ) :
    FPBDJointConstraintsM :=
  c

/-- The frame the claim describes for `AddConstraint`: the world frame
expressed in the body's local coordinates (translation `worldT - bodyX`
rotated into body space by the inverse body rotation; rotation carried
into body space likewise). -/
def claimedLocalFrame (p : JointBody) (worldFrame : RigidTransformQ) :
    RigidTransformQ :=
  ⟨p.r.conj.rotateVector (Vec3.sub worldFrame.t p.x),
   QuatQ.mul p.r.conj worldFrame.r⟩

end FPBDJointConstraintsM

/-- A container holding one joint constraint between particles 0 and 1
(both at the origin with identity rotations). -/
def jointContainerRef01 : FPBDJointConstraintsM :=
  ⟨[(0, 1)],
   [(⟨Vec3.zero, QuatQ.one⟩, ⟨Vec3.zero, QuatQ.one⟩)]⟩

/-- C1: For every set S of particle handles, RemoveConstraints(S) on the
joint-constraint container removes every joint constraint that references a
particle in S, so that after the call no remaining constraint in the
container references any particle in S.  The claim FAILS on the code: the
body of `FPBDJointConstraints::RemoveConstraints` is empty, so a constraint
referencing a doomed particle survives the call.  Evaluated here at a
container holding one constraint that references particle 0, with
S = [0]: the call leaves the container unchanged and the constraint still
references a member of S. -/
theorem removeConstraints_leaves_referencing_constraint :
    FPBDJointConstraintsM.removeConstraints jointContainerRef01 [0] =
      jointContainerRef01 ∧
    (0, 1) ∈ (FPBDJointConstraintsM.removeConstraints
      jointContainerRef01 [0]).constraintParticles ∧
    (0 : ℕ) ∈ [0] := by
  refine ⟨rfl, ?_, ?_⟩ <;> simp [FPBDJointConstraintsM.removeConstraints,
    jointContainerRef01]

/-- A body rotated 180 degrees about the z axis, sitting at the origin. -/
def jointBodyZ180 : JointBody := ⟨Vec3.zero, ⟨0, 0, 1, 0⟩⟩

/-- A world-space constraint frame at translation (1,0,0), identity
rotation. -/
def worldFrameX1 : RigidTransformQ := ⟨⟨1, 0, 0⟩, QuatQ.one⟩

/-- C7 counterexample: the frame stored by the world-frame overload of
`AddConstraint` is NOT the world frame expressed in the body's local
coordinates.  For a body at the origin rotated 180 degrees about z and a
world frame at translation (1,0,0), the stored translation is (1,0,0)
(the world-space offset, not rotated into body space), while the world
frame expressed in body-local coordinates has translation (-1,0,0). -/
theorem addConstraint_storedFrame_ne_localExpression :
    (FPBDJointConstraintsM.addConstraintWorldFrame
        FPBDJointConstraintsM.empty (0, 1) jointBodyZ180 jointBodyZ180
        worldFrameX1).constraintFrames =
      [(FPBDJointConstraintsM.storedLocalFrame jointBodyZ180 worldFrameX1,
        FPBDJointConstraintsM.storedLocalFrame jointBodyZ180 worldFrameX1)] ∧
    (FPBDJointConstraintsM.storedLocalFrame jointBodyZ180 worldFrameX1).t =
      ⟨1, 0, 0⟩ ∧
    (FPBDJointConstraintsM.claimedLocalFrame jointBodyZ180 worldFrameX1).t =
      ⟨-1, 0, 0⟩ ∧
    FPBDJointConstraintsM.storedLocalFrame jointBodyZ180 worldFrameX1 ≠
      FPBDJointConstraintsM.claimedLocalFrame jointBodyZ180 worldFrameX1 := by
  have hs : (FPBDJointConstraintsM.storedLocalFrame jointBodyZ180
      worldFrameX1).t = ⟨1, 0, 0⟩ := by
    simp [FPBDJointConstraintsM.storedLocalFrame, jointBodyZ180, worldFrameX1,
      Vec3.sub, Vec3.zero]
  have hc : (FPBDJointConstraintsM.claimedLocalFrame jointBodyZ180
      worldFrameX1).t = ⟨-1, 0, 0⟩ := by
    simp [FPBDJointConstraintsM.claimedLocalFrame, jointBodyZ180, worldFrameX1,
      Vec3.sub, Vec3.zero, QuatQ.conj, QuatQ.rotateVector, Vec3.cross,
      Vec3.smul, Vec3.add]
    norm_num
  refine ⟨rfl, hs, hc, fun h => ?_⟩
  rw [congrArg RigidTransformQ.t h, hc] at hs
  norm_num [Vec3.mk.injEq] at hs

/-- C7 (amended): `AddConstraint`, given a world-space constraint frame,
stores for each body the frame with translation `worldT - bodyX` (kept in
world axes, not rotated into body space) and rotation
`worldR * bodyR.Inverse()`; when the body rotations are unit quaternions
the stored frames recompose to the world frame: stored translation plus
body position gives the world translation, and stored rotation composed
with the body rotation gives the world rotation. -/
theorem addConstraintWorldFrame_spec (c : FPBDJointConstraintsM)
    (ids : ℕ × ℕ) (p0 p1 : JointBody) (wf : RigidTransformQ)
    (h0 : p0.r.normSq = 1) (h1 : p1.r.normSq = 1) :
    ∃ f0 f1 : RigidTransformQ,
      (FPBDJointConstraintsM.addConstraintWorldFrame c ids p0 p1 wf).constraintFrames
          = c.constraintFrames ++ [(f0, f1)] ∧
      (FPBDJointConstraintsM.addConstraintWorldFrame c ids p0 p1 wf).constraintParticles
          = c.constraintParticles ++ [ids] ∧
      f0.t = Vec3.sub wf.t p0.x ∧ f1.t = Vec3.sub wf.t p1.x ∧
      Vec3.add f0.t p0.x = wf.t ∧ Vec3.add f1.t p1.x = wf.t ∧
      QuatQ.mul f0.r p0.r = wf.r ∧ QuatQ.mul f1.r p1.r = wf.r := by
  refine ⟨FPBDJointConstraintsM.storedLocalFrame p0 wf,
    FPBDJointConstraintsM.storedLocalFrame p1 wf, rfl, rfl, rfl, rfl,
    Vec3.addSubCancel _ _, Vec3.addSubCancel _ _, ?_, ?_⟩
  · show QuatQ.mul (QuatQ.mul wf.r p0.r.conj) p0.r = wf.r
    rw [QuatQ.mulAssoc, QuatQ.mulConjSelf p0.r h0, QuatQ.mulOneRight]
  · show QuatQ.mul (QuatQ.mul wf.r p1.r.conj) p1.r = wf.r
    rw [QuatQ.mulAssoc, QuatQ.mulConjSelf p1.r h1, QuatQ.mulOneRight]

/-- C7 amended-claim witness: the recomposition property holds at a
concrete unit-rotation body and world frame. -/
theorem addConstraintWorldFrame_spec_witness :
    jointBodyZ180.r.normSq = 1 ∧
    ∃ f0 f1 : RigidTransformQ,
      (FPBDJointConstraintsM.addConstraintWorldFrame
          FPBDJointConstraintsM.empty (0, 1) jointBodyZ180 jointBodyZ180
          worldFrameX1).constraintFrames
          = FPBDJointConstraintsM.empty.constraintFrames ++ [(f0, f1)] ∧
      (FPBDJointConstraintsM.addConstraintWorldFrame
          FPBDJointConstraintsM.empty (0, 1) jointBodyZ180 jointBodyZ180
          worldFrameX1).constraintParticles
          = FPBDJointConstraintsM.empty.constraintParticles ++ [(0, 1)] ∧
      f0.t = Vec3.sub worldFrameX1.t jointBodyZ180.x ∧
      f1.t = Vec3.sub worldFrameX1.t jointBodyZ180.x ∧
      Vec3.add f0.t jointBodyZ180.x = worldFrameX1.t ∧
      Vec3.add f1.t jointBodyZ180.x = worldFrameX1.t ∧
      QuatQ.mul f0.r jointBodyZ180.r = worldFrameX1.r ∧
      QuatQ.mul f1.r jointBodyZ180.r = worldFrameX1.r :=
  ⟨by norm_num [jointBodyZ180, QuatQ.normSq],
   addConstraintWorldFrame_spec FPBDJointConstraintsM.empty (0, 1)
     jointBodyZ180 jointBodyZ180 worldFrameX1
     (by norm_num [jointBodyZ180, QuatQ.normSq])
     (by norm_num [jointBodyZ180, QuatQ.normSq])⟩

end Chaos

namespace Chaos

/-!
## Joint solve passes: ordering and projection gating

From `FPBDJointConstraints::Apply`, `ApplyPushOut` and `ApplyProjection`
in `PBDJointConstraints.cpp`.  What the ordering and gating claims
constrain is the sequence of constraints handed to
`SolvePosition`/`SolveVelocity`/`ProjectPosition` and whether
`ApplyProjection` is invoked, so each pass is embedded as the trace of
that data.
-/

/-- `EJointProjectionPhase`. -/
inductive EJointProjectionPhase where
  | phaseNone
  | phaseApply
  | phaseApplyPushOut
deriving DecidableEq, Repr

/-- The members of `FPBDJointSolverSettings` read by the pass-ordering and
projection-gating logic. -/
structure FPBDJointSolverSettingsM where
  projectionPhase : EJointProjectionPhase
  applyPushOutPairIterations : ℤ
deriving DecidableEq, Repr

/-- A constraint handle together with its `GetConstraintLevel()` value. -/
structure JointConstraintRef where
  idx : ℕ
  level : ℤ
deriving DecidableEq, Repr

/-- The comparator of `FPBDJointConstraints::Apply`
(`L.GetConstraintLevel() > R.GetConstraintLevel()`, leaf to root),
as the non-strict total order the C++ sort produces. -/
def leafToRootOrder (l r : JointConstraintRef) : Prop := r.level ≤ l.level

/-- The comparator of `ApplyPushOut` / `ApplyProjection`
(`L.GetConstraintLevel() < R.GetConstraintLevel()`, root to leaf),
as the non-strict total order the C++ sort produces. -/
def rootToLeafOrder (l r : JointConstraintRef) : Prop := l.level ≤ r.level

instance : DecidableRel leafToRootOrder :=
  fun l r => inferInstanceAs (Decidable (r.level ≤ l.level))

instance : DecidableRel rootToLeafOrder :=
  fun l r => inferInstanceAs (Decidable (l.level ≤ r.level))

/-- The sorted handle list built at the top of `Apply`. -/
def sortLeafToRoot (hs : List JointConstraintRef) : List JointConstraintRef :=
  List.insertionSort leafToRootOrder hs

/-- The sorted handle list built in `ApplyPushOut` and `ApplyProjection`. -/
def sortRootToLeaf (hs : List JointConstraintRef) : List JointConstraintRef :=
  List.insertionSort rootToLeafOrder hs

/-- The trace of one joint-container solve pass: the constraints handed to
the per-constraint solver in order, whether `ApplyProjection` was invoked,
and the constraints it handed to `ProjectPosition` in order. -/
structure JointPassTrace where
  solveOrder : List JointConstraintRef
  projectionRan : Bool
  projectionOrder : List JointConstraintRef
deriving DecidableEq, Repr

/-- `FPBDJointConstraints::ApplyProjection`: sorts the incoming handles
root to leaf and projects each in that order. -/
def applyProjectionOrder (hs : List JointConstraintRef) :
    List JointConstraintRef :=
  sortRootToLeaf hs

/-- `FPBDJointConstraints::Apply(Dt, InConstraintHandles, It, NumIts)`:
sorts the handles leaf to root and solves each; then, when
`ProjectionPhase == EJointProjectionPhase::Apply` and
`It == NumIts - 1`, invokes `ApplyProjection` on the original handle
list. -/
def applyPass (st : FPBDJointSolverSettingsM) (hs : List JointConstraintRef)
    (It NumIts : ℤ) : JointPassTrace :=
  if st.projectionPhase = EJointProjectionPhase.phaseApply then
    if It = NumIts - 1 then
      ⟨sortLeafToRoot hs, true, applyProjectionOrder hs⟩
    else
      ⟨sortLeafToRoot hs, false, []⟩
  else
    ⟨sortLeafToRoot hs, false, []⟩

/-- `FPBDJointConstraints::ApplyPushOut(Dt, InConstraintHandles, It, NumIts)`:
when `ApplyPushOutPairIterations > 0`, sorts the handles root to leaf and
solves each (otherwise solves none); then, when
`ProjectionPhase == EJointProjectionPhase::ApplyPushOut` and `It` equals
`NumIts - 1` (if `ApplyPushOutPairIterations > 0`) or `0` (otherwise),
invokes `ApplyProjection` on the original handle list. -/
def applyPushOutPass (st : FPBDJointSolverSettingsM)
    (hs : List JointConstraintRef) (It NumIts : ℤ) : JointPassTrace :=
  if st.projectionPhase = EJointProjectionPhase.phaseApplyPushOut then
    if It = (if 0 < st.applyPushOutPairIterations then NumIts - 1 else 0) then
      ⟨if 0 < st.applyPushOutPairIterations then sortRootToLeaf hs else [],
       true, applyProjectionOrder hs⟩
    else
      ⟨if 0 < st.applyPushOutPairIterations then sortRootToLeaf hs else [],
       false, []⟩
  else
    ⟨if 0 < st.applyPushOutPairIterations then sortRootToLeaf hs else [],
     false, []⟩

theorem sortLeafToRoot_sorted (hs : List JointConstraintRef) :
    List.Sorted leafToRootOrder (sortLeafToRoot hs) := by
  letI : IsTotal JointConstraintRef leafToRootOrder :=
    ⟨fun a b => le_total b.level a.level⟩
  letI : IsTrans JointConstraintRef leafToRootOrder :=
    ⟨fun a b c h1 h2 => le_trans h2 h1⟩
  exact List.sorted_insertionSort leafToRootOrder hs

theorem sortRootToLeaf_sorted (hs : List JointConstraintRef) :
    List.Sorted rootToLeafOrder (sortRootToLeaf hs) := by
  letI : IsTotal JointConstraintRef rootToLeafOrder :=
    ⟨fun a b => le_total a.level b.level⟩
  letI : IsTrans JointConstraintRef rootToLeafOrder :=
    ⟨fun a b c h1 h2 => le_trans h1 h2⟩
  exact List.sorted_insertionSort rootToLeafOrder hs

theorem applyPass_solveOrder (st : FPBDJointSolverSettingsM)
    (hs : List JointConstraintRef) (It NumIts : ℤ) :
    (applyPass st hs It NumIts).solveOrder = sortLeafToRoot hs := by
  unfold applyPass
  split_ifs <;> rfl

theorem applyPushOutPass_solveOrder (st : FPBDJointSolverSettingsM)
    (hs : List JointConstraintRef) (It NumIts : ℤ) :
    (applyPushOutPass st hs It NumIts).solveOrder =
      if 0 < st.applyPushOutPairIterations then sortRootToLeaf hs else [] := by
  unfold applyPushOutPass
  split_ifs <;> simp

/-- C3: `Apply` processes the given constraints sorted by constraint level
in descending order (leaf to root); `ApplyPushOut` and `ApplyProjection`
process them sorted by constraint level in ascending order (root to leaf)
— for every input handle list, so in particular for every pair of
constraints with distinct levels the stated relative order holds.
(`ApplyPushOut` hands constraints to the solver only when
`ApplyPushOutPairIterations > 0`; the list it processes is stated
exactly.) -/
theorem jointPass_orderings (st : FPBDJointSolverSettingsM)
    (hs : List JointConstraintRef) (It NumIts : ℤ) :
    List.Sorted leafToRootOrder ((applyPass st hs It NumIts).solveOrder) ∧
    ((applyPass st hs It NumIts).solveOrder).Perm hs ∧
    List.Sorted rootToLeafOrder
      ((applyPushOutPass st hs It NumIts).solveOrder) ∧
    ((applyPushOutPass st hs It NumIts).solveOrder =
      if 0 < st.applyPushOutPairIterations then sortRootToLeaf hs else []) ∧
    (sortRootToLeaf hs).Perm hs ∧
    List.Sorted rootToLeafOrder (applyProjectionOrder hs) ∧
    (applyProjectionOrder hs).Perm hs := by
  have hperm : (sortRootToLeaf hs).Perm hs :=
    List.perm_insertionSort rootToLeafOrder hs
  refine ⟨?_, ?_, ?_, applyPushOutPass_solveOrder st hs It NumIts, hperm,
    sortRootToLeaf_sorted hs, hperm⟩
  · rw [applyPass_solveOrder]
    exact sortLeafToRoot_sorted hs
  · rw [applyPass_solveOrder]
    exact List.perm_insertionSort leafToRootOrder hs
  · rw [applyPushOutPass_solveOrder]
    split
    · exact sortRootToLeaf_sorted hs
    · exact List.sorted_nil

/-- C6: projection is applied only when the configured projection phase
matches the current pass and only on the designated last iteration.
Within `Apply`, projection runs exactly when `It = NumIts - 1` (and the
phase is `Apply`); within `ApplyPushOut`, it runs exactly when
`It = NumIts - 1` if `ApplyPushOutPairIterations > 0` and exactly when
`It = 0` otherwise (and the phase is `ApplyPushOut`); in every other
iteration and phase configuration no projection is applied. -/
theorem jointPass_projectionGating (st : FPBDJointSolverSettingsM)
    (hs : List JointConstraintRef) (It NumIts : ℤ) :
    ((applyPass st hs It NumIts).projectionRan = true ↔
      (st.projectionPhase = EJointProjectionPhase.phaseApply ∧
        It = NumIts - 1)) ∧
    ((applyPushOutPass st hs It NumIts).projectionRan = true ↔
      (st.projectionPhase = EJointProjectionPhase.phaseApplyPushOut ∧
        It = (if 0 < st.applyPushOutPairIterations then NumIts - 1 else 0))) := by
  constructor
  · unfold applyPass
    split_ifs with h1 h2 <;> simp_all
  · unfold applyPushOutPass
    split_ifs with h1 h2 <;> simp_all

end Chaos

namespace Chaos

/-!
## Cloth step driver sub-stepping (`ClothingSimulation::Simulate`)

From the unnamed clothing simulation source: the advance loop

  while (Context->DeltaTime > MaxDeltaTime)
  {
      Evolution->AdvanceOneTimeStep(MaxDeltaTime);
      Context->DeltaTime -= MaxDeltaTime;
  }
  Evolution->AdvanceOneTimeStep(Context->DeltaTime);

embedded as the list of `dt` arguments passed to `AdvanceOneTimeStep`.
Termination requires `0 < MaxDeltaTime` (the C++ loop also diverges
otherwise), carried as a proof argument.
-/

theorem ceilDivToNat_decreases (maxDt dt : ℚ) (hMax : 0 < maxDt)
    (h : maxDt < dt) :
    (⌈(dt - maxDt) / maxDt⌉).toNat < (⌈dt / maxDt⌉).toNat := by
  have hone : (1 : ℚ) < dt / maxDt := (one_lt_div hMax).mpr h
  have hceil : (1 : ℤ) < ⌈dt / maxDt⌉ := by
    have := Int.lt_ceil.mpr (by exact_mod_cast hone)
    exact_mod_cast this
  have heq : ⌈(dt - maxDt) / maxDt⌉ = ⌈dt / maxDt⌉ - 1 := by
    rw [sub_div, div_self (ne_of_gt hMax)]
    exact Int.ceil_sub_one _
  rw [heq]
  have hpos : (0 : ℤ) < ⌈dt / maxDt⌉ := lt_trans one_pos hceil
  rw [Int.toNat_lt_toNat hpos]
  omega

/-- The sequence of `AdvanceOneTimeStep` arguments issued by
`ClothingSimulation::Simulate` for a frame delta `dt`: full steps of
`maxDt` while more than `maxDt` remains, then one final step with the
remainder. -/
def clothSubSteps (maxDt : ℚ) (hMax : 0 < maxDt) (dt : ℚ) : List ℚ :=
  if _hd : maxDt < dt then
    maxDt :: clothSubSteps maxDt hMax (dt - maxDt)
  else
    [dt]
termination_by (⌈dt / maxDt⌉).toNat
decreasing_by exact ceilDivToNat_decreases maxDt dt hMax _hd

theorem clothSubSteps_struct (maxDt : ℚ) (hMax : 0 < maxDt) :
    ∀ n dt, (⌈dt / maxDt⌉).toNat = n → 0 < dt →
    ∃ (k : ℕ) (r : ℚ),
      clothSubSteps maxDt hMax dt = List.replicate k maxDt ++ [r] ∧
      0 < r ∧ r ≤ maxDt ∧ (k : ℚ) * maxDt + r = dt := by
  intro n
  induction n using Nat.strong_induction_on with
  | _ n ih =>
    intro dt hn hdt
    rw [clothSubSteps]
    by_cases h : maxDt < dt
    · have hdt' : 0 < dt - maxDt := sub_pos.mpr h
      have hm : (⌈(dt - maxDt) / maxDt⌉).toNat < n := by
        rw [← hn]
        exact ceilDivToNat_decreases maxDt dt hMax h
      obtain ⟨k, r, hsteps, hr0, hrle, hsum⟩ :=
        ih _ hm (dt - maxDt) rfl hdt'
      refine ⟨k + 1, r, ?_, hr0, hrle, ?_⟩
      · simp only [h, dite_true, hsteps, List.replicate_succ, List.cons_append]
      · push_cast
        linarith
    · refine ⟨0, dt, ?_, hdt, le_of_not_lt h, by push_cast; ring⟩
      simp only [h, dite_false, List.replicate, List.nil_append]

/-- C9: for every frame delta `dt > 0` and maximum sub-step size
`maxDt > 0`, the cloth step driver advances the evolution by a sequence
of `AdvanceOneTimeStep` calls consisting of full `maxDt`-sized sub-steps
while more than `maxDt` of the frame remains, followed by one final
remainder step; no sub-step exceeds `maxDt` and the sub-step sizes sum to
`dt`. -/
theorem clothSubSteps_spec (maxDt dt : ℚ) (hMax : 0 < maxDt)
    (hdt : 0 < dt) :
    ∃ (k : ℕ) (r : ℚ),
      clothSubSteps maxDt hMax dt = List.replicate k maxDt ++ [r] ∧
      0 < r ∧ r ≤ maxDt ∧ (k : ℚ) * maxDt + r = dt ∧
      (∀ s ∈ clothSubSteps maxDt hMax dt, s ≤ maxDt) ∧
      (clothSubSteps maxDt hMax dt).sum = dt := by
  obtain ⟨k, r, hsteps, hr0, hrle, hsum⟩ :=
    clothSubSteps_struct maxDt hMax _ dt rfl hdt
  refine ⟨k, r, hsteps, hr0, hrle, hsum, ?_, ?_⟩
  · intro s hs
    rw [hsteps] at hs
    rcases List.mem_append.mp hs with hs | hs
    · rw [List.eq_of_mem_replicate hs]
    · rw [List.mem_singleton.mp hs]
      exact hrle
  · rw [hsteps, List.sum_append, List.sum_replicate, List.sum_singleton,
      nsmul_eq_mul]
    exact hsum

/-- C9 witness: with `MaxDeltaTime = 1` and a frame delta of `5/2`, the
driver takes sub-steps summing to the frame delta, none exceeding the
maximum. -/
theorem clothSubSteps_spec_witness :
    (0 : ℚ) < 1 ∧ (0 : ℚ) < 5 / 2 ∧
    ∃ (k : ℕ) (r : ℚ),
      clothSubSteps 1 one_pos (5 / 2) = List.replicate k 1 ++ [r] ∧
      0 < r ∧ r ≤ 1 ∧ (k : ℚ) * 1 + r = 5 / 2 ∧
      (∀ s ∈ clothSubSteps 1 one_pos (5 / 2), s ≤ 1) ∧
      (clothSubSteps 1 one_pos (5 / 2)).sum = 5 / 2 :=
  ⟨one_pos, by norm_num, clothSubSteps_spec 1 (5 / 2) one_pos (by norm_num)⟩

end Chaos

namespace Chaos

/-!
## Dynamic spring constraints (`TPBDRigidDynamicSpringConstraints`)

From `PBDRigidDynamicSpringConstraints.cpp`.  The geometry /
signed-distance-field query interface consumed here (`PhiWithNormal`,
bounding box, box transform, overlap test) is an external collaborator
whose implementation is not part of the sampled source; it is embedded as
per-geometry data below.
-/

/-- An axis-aligned box (models `TBox<T,3>` as used here: a min and a max
corner). -/
structure BoxQ where
  lo : Vec3
  hi : Vec3
deriving DecidableEq, Repr

namespace BoxQ

/-- `TBox::Thicken`: grow the box by `d` on all sides. -/
def thicken (b : BoxQ) (d : ℚ) : BoxQ :=
  ⟨Vec3.sub b.lo ⟨d, d, d⟩, Vec3.add b.hi ⟨d, d, d⟩⟩

/-- Modelled from the spec: the overlap test of two axis-aligned boxes
(the consumed geometry interface's `Intersects`), per-axis interval
overlap. -/
def intersects (a b : BoxQ) : Bool :=
  decide (a.lo.x ≤ b.hi.x) && decide (b.lo.x ≤ a.hi.x) &&
  decide (a.lo.y ≤ b.hi.y) && decide (b.lo.y ≤ a.hi.y) &&
  decide (a.lo.z ≤ b.hi.z) && decide (b.lo.z ≤ a.hi.z)

end BoxQ

/-- Modelled from the spec: the geometry/signed-distance-field query
interface consumed by spring-constraint creation (`PhiWithNormal`,
`HasBoundingBox`/`BoundingBox`, and the bounding box transformed by a
relative rigid transform, `TBox::TransformedBox`, which is not under the
sampled source).  `phiNormal` returns the signed distance and the
local-space normal at a local-space point. -/
structure GeoM where
  phiNormal : Vec3 → ℚ × Vec3
  bb : Option BoxQ
  transformedBB : RigidTransformQ → BoxQ

/-- The particle state read by the dynamic-spring container: dynamic flag
(`AsDynamic() != nullptr`), `X()`/`R()` for non-dynamic access,
`P()`/`Q()` for dynamic access, `InvM()`, and the geometry reference. -/
structure SpringBody where
  dynamic : Bool
  x : Vec3
  r : QuatQ
  p : Vec3
  q : QuatQ
  invM : ℚ
  geometry : Option GeoM

namespace SpringBody

/-- `PBDRigid ? PBDRigid->Q() : Static->R()`. -/
def qEff (b : SpringBody) : QuatQ := if b.dynamic then b.q else b.r

/-- `PBDRigid ? PBDRigid->P() : Static->X()`. -/
def pEff (b : SpringBody) : Vec3 := if b.dynamic then b.p else b.x

end SpringBody

/-- One spring of a constraint: the two local-space attachment offsets
(`Distances[i][j][0..1]`) and the square of the stored rest length
(`SpringDistances[i][j]`; the source stores the length itself, and only
comparisons of it are observable, so its square is carried). -/
structure SpringM where
  d0 : Vec3
  d1 : Vec3
  restSq : ℚ
deriving DecidableEq, Repr

/-- One constraint of the container: the two constrained particles and the
per-constraint spring list. -/
structure SpringConstraintM where
  body0 : SpringBody
  body1 : SpringBody
  springs : List SpringM

/-- `TArray::RemoveAtSwap`: replace the element at `k` with the last
element and drop the last slot. -/
def removeAtSwapList {α : Type} (l : List α) (k : ℕ) : List α :=
  match l.getLast? with
  | some a => (l.set k a).dropLast
  | none => l

/-- The backward deletion loop of `UpdatePositionBasedState`: indices are
visited from `NumSprings - 1` down to `0`, and an element satisfying
`far` is removed with `RemoveAtSwap`.  `deleteBackSwapGo far k l`
processes indices `k - 1, ..., 0`. -/
def deleteBackSwapGo {α : Type} (far : α → Bool) : ℕ → List α → List α
  | 0, l => l
  | k + 1, l =>
    match l[k]? with
    | some v =>
      if far v then
        deleteBackSwapGo far k (removeAtSwapList l k)
      else
        deleteBackSwapGo far k l
    | none => deleteBackSwapGo far k l

/-- The whole deletion pass over a spring list. -/
def deleteBackSwap {α : Type} (far : α → Bool) (l : List α) : List α :=
  deleteBackSwapGo far l.length l

theorem removeAtSwapList_concat {α : Type} (l : List α) (a : α) (k : ℕ) :
    removeAtSwapList (l ++ [a]) k = l.set k a := by
  have h1 : removeAtSwapList (l ++ [a]) k = ((l ++ [a]).set k a).dropLast := by
    unfold removeAtSwapList
    rw [List.getLast?_concat]
  rw [h1]
  by_cases hk : k < l.length
  · rw [List.set_append_left _ _ hk, List.dropLast_concat]
  · have hset : l.set k a = l := List.set_eq_of_length_le (le_of_not_lt hk)
    rcases Nat.lt_or_ge k (l ++ [a]).length with hlt | hge
    · have hk2 : k = l.length := by
        simp only [List.length_append, List.length_singleton] at hlt
        omega
      subst hk2
      rw [List.set_append_right _ _ (le_refl _)]
      simp [hset]
    · rw [List.set_eq_of_length_le hge, List.dropLast_concat, hset]

theorem deleteBackSwapGo_spec {α : Type} (far : α → Bool) :
    ∀ (k : ℕ) (l : List α),
      (∀ i, k ≤ i → ∀ v, l[i]? = some v → far v = false) →
      (∀ s ∈ deleteBackSwapGo far k l, s ∈ l ∧ far s = false) ∧
      (deleteBackSwapGo far k l).length ≤ l.length := by
  intro k
  induction k with
  | zero =>
    intro l hclean
    refine ⟨fun s hs => ⟨hs, ?_⟩, le_refl _⟩
    obtain ⟨i, hi, rfl⟩ := List.mem_iff_getElem.mp hs
    exact hclean i (Nat.zero_le i) _ (List.getElem?_eq_getElem hi)
  | succ k ih =>
    intro l hclean
    unfold deleteBackSwapGo
    cases hv : l[k]? with
    | none =>
      refine ih l fun i hki v hiv => ?_
      rcases Nat.eq_or_lt_of_le hki with rfl | hki2
      · rw [hv] at hiv
        exact absurd hiv (by simp)
      · exact hclean i hki2 v hiv
    | some v =>
      by_cases hfar : far v = true
      · simp only [hfar, if_true]
        obtain ⟨hk, hvk⟩ := List.getElem?_eq_some.mp hv
        rcases List.eq_nil_or_concat l with rfl | ⟨l2, a, hl⟩
        · simp at hk
        · rw [List.concat_eq_append] at hl
          subst hl
          rw [removeAtSwapList_concat]
          have hk2 : k < l2.length + 1 := by
            simpa [List.length_append] using hk
          have hclean2 : ∀ i, k ≤ i → ∀ u, (l2.set k a)[i]? = some u →
              far u = false := by
            intro i hki u hiu
            rw [List.getElem?_set] at hiu
            by_cases hik : k = i
            · subst hik
              rcases Nat.lt_or_ge k l2.length with hkl | hkl
              · simp only [if_pos rfl, hkl, if_true] at hiu
                have ha : (l2 ++ [a])[l2.length]? = some a :=
                  List.getElem?_concat_length l2 a
                have := hclean l2.length (by omega) a ha
                rw [Option.some_inj.mp hiu] at this
                exact this
              · simp only [if_pos rfl, Nat.not_lt.mpr hkl, if_false] at hiu
                exact absurd hiu (by simp)
            · have hki2 : k + 1 ≤ i := by
                omega
              have hiu2 : (l2 ++ [a])[i]? = some u := by
                rw [if_neg hik] at hiu
                have hil : i < l2.length := by
                  by_contra hge
                  rw [List.getElem?_eq_none (by omega)] at hiu
                  exact absurd hiu (by simp)
                rw [List.getElem?_append_left hil]
                exact hiu
              exact hclean i hki2 u hiu2
          obtain ⟨hmem, hlen⟩ := ih (l2.set k a) hclean2
          constructor
          · intro s hs
            obtain ⟨hs1, hs2⟩ := hmem s hs
            refine ⟨?_, hs2⟩
            rcases List.mem_or_eq_of_mem_set hs1 with h | rfl
            · exact List.mem_append_left _ h
            · exact List.mem_append_right _ (List.mem_singleton_self _)
          · calc (deleteBackSwapGo far k (l2.set k a)).length
                ≤ (l2.set k a).length := hlen
              _ ≤ (l2 ++ [a]).length := by
                  rw [List.length_set]
                  simp [List.length_append]
      · simp only [Bool.not_eq_true] at hfar
        simp only [hfar, if_false]
        refine ih l fun i hki u hiu => ?_
        rcases Nat.eq_or_lt_of_le hki with rfl | hki2
        · rw [hv] at hiu
          rw [← Option.some_inj.mp hiu]
          exact hfar
        · exact hclean i hki2 u hiu

theorem deleteBackSwap_spec {α : Type} (far : α → Bool) (l : List α) :
    (∀ s ∈ deleteBackSwap far l, s ∈ l ∧ far s = false) ∧
    (deleteBackSwap far l).length ≤ l.length := by
  refine deleteBackSwapGo_spec far l.length l ?_
  intro i hi v hiv
  rw [List.getElem?_eq_none hi] at hiv
  exact absurd hiv (by simp)

end Chaos

namespace Chaos

/-- World-space spring endpoint: `Q.RotateVector(Distance) + P`. -/
def springWorldEnd (b : SpringBody) (d : Vec3) : Vec3 :=
  Vec3.add (b.qEff.rotateVector d) b.pEff

/-- The deletion test of `UpdatePositionBasedState`:
`Distance > CreationThreshold * 2` on the separation of the recomputed
world-space endpoints (compared on squares). -/
def springFar (ct : ℚ) (c : SpringConstraintM) (s : SpringM) : Bool :=
  decide (ct * 2 * (ct * 2) <
    (Vec3.sub (springWorldEnd c.body1 s.d1)
      (springWorldEnd c.body0 s.d0)).sizeSq)

/-- `Transform1(P0, Q0)`. -/
def springTransform0 (c : SpringConstraintM) : RigidTransformQ :=
  ⟨c.body0.pEff, c.body0.qEff⟩

/-- `Transform2(P1, Q1)`. -/
def springTransform1 (c : SpringConstraintM) : RigidTransformQ :=
  ⟨c.body1.pEff, c.body1.qEff⟩

/-- The box used for the early rejection:
`Geometry0->BoundingBox().TransformedBox(Transform1 * Transform2.Inverse())`
thickened by the creation threshold. -/
def springBox0 (ct : ℚ) (c : SpringConstraintM) (g0 : GeoM) : BoxQ :=
  (g0.transformedBB
    (RigidTransformQ.mulUE (springTransform0 c)
      (springTransform1 c).inverse)).thicken ct

/-- The early bounding-box rejection: when both geometries have bounding
boxes and the threshold-inflated boxes do not intersect, the pair is
skipped. -/
def springBoxReject (ct : ℚ) (c : SpringConstraintM) (g0 g1 : GeoM) : Bool :=
  match g0.bb, g1.bb with
  | some _, some bb1 => ! (springBox0 ct c g0).intersects (bb1.thicken ct)
  | _, _ => false

/-- `(P0 + P1) / 2`. -/
def springMidpoint (c : SpringConstraintM) : Vec3 :=
  Vec3.smul (1 / 2) (Vec3.add c.body0.pEff c.body1.pEff)

/-- `Phi1`: signed distance of body 0's geometry at the midpoint in body
0's local frame. -/
def springPhi1 (c : SpringConstraintM) (g0 : GeoM) : ℚ :=
  (g0.phiNormal ((springTransform0 c).inverseTransformPosition
    (springMidpoint c))).1

/-- `Phi2`: signed distance of body 1's geometry at the midpoint in body
1's local frame. -/
def springPhi2 (c : SpringConstraintM) (g1 : GeoM) : ℚ :=
  (g1.phiNormal ((springTransform1 c).inverseTransformPosition
    (springMidpoint c))).1

/-- `Normal1` after `Transform2.TransformVector` (the source transforms
both normals by `Transform2`). -/
def springNormal1 (c : SpringConstraintM) (g0 : GeoM) : Vec3 :=
  (springTransform1 c).transformVector
    (g0.phiNormal ((springTransform0 c).inverseTransformPosition
      (springMidpoint c))).2

/-- `Normal2` after `Transform2.TransformVector`. -/
def springNormal2 (c : SpringConstraintM) (g1 : GeoM) : Vec3 :=
  (springTransform1 c).transformVector
    (g1.phiNormal ((springTransform1 c).inverseTransformPosition
      (springMidpoint c))).2

/-- `Location0 = Midpoint - Phi1 * Normal1`. -/
def springLoc0 (c : SpringConstraintM) (g0 : GeoM) : Vec3 :=
  Vec3.sub (springMidpoint c) (Vec3.smul (springPhi1 c g0) (springNormal1 c g0))

/-- `Location1 = Midpoint - Phi2 * Normal2`. -/
def springLoc1 (c : SpringConstraintM) (g1 : GeoM) : Vec3 :=
  Vec3.sub (springMidpoint c) (Vec3.smul (springPhi2 c g1) (springNormal2 c g1))

/-- The accepted new spring: local offsets
`Distance[0] = Q0.Inverse().RotateVector(Location0 - P0)` and
`Distance[1] = Q0.Inverse().RotateVector(Location1 - P1)` (the source
uses `Q0` for both), rest length `(Location0 - Location1).Size()`
(its square is carried). -/
def springNew (c : SpringConstraintM) (g0 g1 : GeoM) : SpringM :=
  ⟨c.body0.qEff.conj.rotateVector (Vec3.sub (springLoc0 c g0) c.body0.pEff),
   c.body0.qEff.conj.rotateVector (Vec3.sub (springLoc1 c g1) c.body1.pEff),
   (Vec3.sub (springLoc0 c g0) (springLoc1 c g1)).sizeSq⟩

/-- The per-constraint body of
`TPBDRigidDynamicSpringConstraints::UpdatePositionBasedState`:
skip entirely when either body has no geometry; otherwise run the
backward deletion loop, then (unless the spring count reached
`MaxSprings`, the inflated boxes fail to overlap, or
`Phi1 + Phi2 > CreationThreshold`) append one new spring. -/
def springUpdateOne (ct : ℚ) (maxSprings : ℕ) (c : SpringConstraintM) :
    SpringConstraintM :=
  match c.body0.geometry, c.body1.geometry with
  | some g0, some g1 =>
    if (deleteBackSwap (springFar ct c) c.springs).length = maxSprings then
      { c with springs := deleteBackSwap (springFar ct c) c.springs }
    else if springBoxReject ct c g0 g1 then
      { c with springs := deleteBackSwap (springFar ct c) c.springs }
    else if ct < springPhi1 c g0 + springPhi2 c g1 then
      { c with springs := deleteBackSwap (springFar ct c) c.springs }
    else
      { c with springs :=
          deleteBackSwap (springFar ct c) c.springs ++ [springNew c g0 g1] }
  | _, _ => c

/-- The dynamic-spring constraint container: `CreationThreshold`,
`MaxSprings` and the constraint array with per-constraint spring state. -/
structure FPBDRigidDynamicSpringConstraintsM where
  creationThreshold : ℚ
  maxSprings : ℕ
  constraints : List SpringConstraintM

/-- `TPBDRigidDynamicSpringConstraints::UpdatePositionBasedState(Dt)`:
the loop over `ConstraintIndex` applies the per-constraint update to each
constraint independently. -/
def springUpdatePositionBasedState (cont : FPBDRigidDynamicSpringConstraintsM) :
    FPBDRigidDynamicSpringConstraintsM :=
  { cont with constraints :=
      cont.constraints.map (springUpdateOne cont.creationThreshold cont.maxSprings) }

end Chaos

namespace Chaos

/-- The control-flow outcome of
`TPBDRigidDynamicSpringConstraints::GetDelta`: either the early
zero-return taken when neither body is dynamic, or the main path, which
computes `Distance` and divides by it (`Direction = Difference / Distance`)
and by `InvM0 + InvM1`; `divided` records the squared distance divided by
and the inverse-mass sum.  The source guards the main path only with the
assertion `check(Distance > 1e-7)` before dividing. -/
inductive SpringDeltaResult where
  | zeroBothStatic
  | divided (distSq : ℚ) (invMSum : ℚ)
deriving DecidableEq, Repr

/-- `TPBDRigidDynamicSpringConstraints::GetDelta(WorldSpaceX1, WorldSpaceX2,
ConstraintIndex, SpringIndex)`, as its control-flow outcome. -/
def getDeltaPath (c : SpringConstraintM) (w1 w2 : Vec3) : SpringDeltaResult :=
  if c.body0.dynamic = false ∧ c.body1.dynamic = false then
    SpringDeltaResult.zeroBothStatic
  else
    SpringDeltaResult.divided (Vec3.sub w2 w1).sizeSq
      ((if c.body0.dynamic then c.body0.invM else 0) +
       (if c.body1.dynamic then c.body1.invM else 0))

/-- A geometry with a trivial signed-distance field and no bounding box. -/
def geoTrivial : GeoM :=
  ⟨fun _ => (0, Vec3.zero), none, fun _ => ⟨Vec3.zero, Vec3.zero⟩⟩

/-- A static body at the origin with no geometry. -/
def springBodyNoGeo : SpringBody :=
  ⟨false, Vec3.zero, QuatQ.one, Vec3.zero, QuatQ.one, 0, none⟩

/-- A static body at the origin carrying `geoTrivial`. -/
def springBodyGeo : SpringBody :=
  ⟨false, Vec3.zero, QuatQ.one, Vec3.zero, QuatQ.one, 0, some geoTrivial⟩

/-- A dynamic body at the origin with inverse mass 1 and no geometry. -/
def springBodyDyn : SpringBody :=
  ⟨true, Vec3.zero, QuatQ.one, Vec3.zero, QuatQ.one, 1, none⟩

/-- A spring whose endpoints are 100 units apart. -/
def farSpring : SpringM := ⟨Vec3.zero, ⟨100, 0, 0⟩, 0⟩

/-- A constraint whose first body has no geometry, holding `farSpring`. -/
def c4Constraint : SpringConstraintM := ⟨springBodyNoGeo, springBodyGeo, [farSpring]⟩

/-- A container with `CreationThreshold = 1`, `MaxSprings = 1`, holding
`c4Constraint`. -/
def c4Container : FPBDRigidDynamicSpringConstraintsM := ⟨1, 1, [c4Constraint]⟩

/-- A constraint whose first body is dynamic and second is static. -/
def c5Constraint : SpringConstraintM := ⟨springBodyDyn, springBodyNoGeo, []⟩

/-- C4 counterexample: `UpdatePositionBasedState` does NOT remove every
existing spring whose recomputed endpoint separation exceeds
`2 x CreationThreshold`: a constraint pair in which a body has no geometry
is skipped before the deletion loop, so its over-stretched spring
survives.  Here `CreationThreshold = 1`, the spring separation is 100
(squared separation 10000 > 4), body 0 has no geometry, and the spring is
still present after the call. -/
theorem springUpdate_keeps_farSpring_without_geometry :
    springFar 1 c4Constraint farSpring = true ∧
    springUpdateOne 1 1 c4Constraint = c4Constraint ∧
    farSpring ∈ (springUpdateOne 1 1 c4Constraint).springs ∧
    (springUpdatePositionBasedState c4Container).constraints = [c4Constraint] := by
  have hfar : springFar 1 c4Constraint farSpring = true := by
    simp only [springFar, springWorldEnd, c4Constraint, springBodyNoGeo,
      springBodyGeo, farSpring, SpringBody.qEff, SpringBody.pEff,
      QuatQ.rotateVector, QuatQ.one, Vec3.cross, Vec3.smul, Vec3.add,
      Vec3.sub, Vec3.zero, Vec3.sizeSq, if_false, Bool.false_eq_true,
      decide_eq_true_eq]
    norm_num
  have hupd : springUpdateOne 1 1 c4Constraint = c4Constraint := rfl
  refine ⟨hfar, hupd, ?_, ?_⟩
  · rw [hupd]
    simp [c4Constraint]
  · simp only [springUpdatePositionBasedState, c4Container, List.map]
    rw [hupd]

/-- C4 (amended): on each `UpdatePositionBasedState` call, constraint
pairs in which either body lacks geometry are skipped entirely (neither
deletion nor creation); for every pair where both bodies have geometry,
every existing spring whose recomputed world-space endpoint separation
exceeds `2 x CreationThreshold` is removed, the surviving springs all come
from the existing ones, and a new spring is created only if the
post-deletion spring count is below `MaxSprings`, the
threshold-inflated bounding boxes overlap whenever both bodies have
bounding boxes, and `Phi1 + Phi2 <= CreationThreshold`. -/
theorem springUpdate_spec (cont : FPBDRigidDynamicSpringConstraintsM)
    (hlen : ∀ c ∈ cont.constraints, c.springs.length ≤ cont.maxSprings) :
    (springUpdatePositionBasedState cont).constraints =
      cont.constraints.map
        (springUpdateOne cont.creationThreshold cont.maxSprings) ∧
    ∀ c ∈ cont.constraints,
      ((c.body0.geometry = none ∨ c.body1.geometry = none) →
        springUpdateOne cont.creationThreshold cont.maxSprings c = c) ∧
      (∀ g0 g1, c.body0.geometry = some g0 → c.body1.geometry = some g1 →
        ∃ (kept : List SpringM) (newOpt : Option SpringM),
          (springUpdateOne cont.creationThreshold cont.maxSprings c).springs =
            kept ++ newOpt.toList ∧
          (∀ s ∈ kept, s ∈ c.springs ∧
            springFar cont.creationThreshold c s = false) ∧
          kept.length ≤ c.springs.length ∧
          (∀ ns, newOpt = some ns →
            ns = springNew c g0 g1 ∧
            kept.length < cont.maxSprings ∧
            (∀ bb0 bb1, g0.bb = some bb0 → g1.bb = some bb1 →
              (springBox0 cont.creationThreshold c g0).intersects
                (bb1.thicken cont.creationThreshold) = true) ∧
            springPhi1 c g0 + springPhi2 c g1 ≤ cont.creationThreshold)) := by
  refine ⟨rfl, fun c hc => ⟨?_, ?_⟩⟩
  · intro h
    unfold springUpdateOne
    cases hg0 : c.body0.geometry <;> cases hg1 : c.body1.geometry <;>
      simp_all
  · intro g0 g1 hg0 hg1
    have hD := deleteBackSwap_spec (springFar cont.creationThreshold c)
      c.springs
    have hDlen : (deleteBackSwap (springFar cont.creationThreshold c)
        c.springs).length ≤ c.springs.length := hD.2
    simp only [springUpdateOne, hg0, hg1]
    split_ifs with h1 h2 h3
    · exact ⟨_, none, by simp, hD.1, hDlen, fun ns hns => by simp at hns⟩
    · exact ⟨_, none, by simp, hD.1, hDlen, fun ns hns => by simp at hns⟩
    · exact ⟨_, none, by simp, hD.1, hDlen, fun ns hns => by simp at hns⟩
    · refine ⟨_, some (springNew c g0 g1), by simp, hD.1, hDlen, ?_⟩
      intro ns hns
      refine ⟨(Option.some_inj.mp hns).symm, ?_, ?_, not_lt.mp h3⟩
      · exact lt_of_le_of_ne (le_trans hDlen (hlen c hc)) h1
      · intro bb0 bb1 hbb0 hbb1
        simp only [springBoxReject, hbb0, hbb1, Bool.not_eq_true',
          Bool.not_eq_true] at h2
        simpa using h2

/-- C4 amended-claim witness: the amended statement instantiated at the
concrete container `c4Container` (whose single constraint satisfies the
spring-count bound). -/
theorem springUpdate_spec_witness :
    (∀ c ∈ c4Container.constraints,
      c.springs.length ≤ c4Container.maxSprings) ∧
    ((springUpdatePositionBasedState c4Container).constraints =
      c4Container.constraints.map
        (springUpdateOne c4Container.creationThreshold c4Container.maxSprings) ∧
    ∀ c ∈ c4Container.constraints,
      ((c.body0.geometry = none ∨ c.body1.geometry = none) →
        springUpdateOne c4Container.creationThreshold c4Container.maxSprings c
          = c) ∧
      (∀ g0 g1, c.body0.geometry = some g0 → c.body1.geometry = some g1 →
        ∃ (kept : List SpringM) (newOpt : Option SpringM),
          (springUpdateOne c4Container.creationThreshold
              c4Container.maxSprings c).springs = kept ++ newOpt.toList ∧
          (∀ s ∈ kept, s ∈ c.springs ∧
            springFar c4Container.creationThreshold c s = false) ∧
          kept.length ≤ c.springs.length ∧
          (∀ ns, newOpt = some ns →
            ns = springNew c g0 g1 ∧
            kept.length < c4Container.maxSprings ∧
            (∀ bb0 bb1, g0.bb = some bb0 → g1.bb = some bb1 →
              (springBox0 c4Container.creationThreshold c g0).intersects
                (bb1.thicken c4Container.creationThreshold) = true) ∧
            springPhi1 c g0 + springPhi2 c g1 ≤
              c4Container.creationThreshold))) :=
  ⟨by simp [c4Container, c4Constraint],
   springUpdate_spec c4Container (by simp [c4Container, c4Constraint])⟩

/-- C5 counterexample: `GetDelta` does NOT return without dividing when
the endpoint separation is below the `1e-7` epsilon: with a dynamic first
body and coincident endpoints (separation 0, below epsilon), the main
path is taken and the division by the separation distance (and by the
inverse-mass sum) is performed; only the both-bodies-non-dynamic case
returns early. -/
theorem getDelta_divides_below_epsilon :
    (Vec3.sub Vec3.zero Vec3.zero).sizeSq <
      (1 / 10000000 : ℚ) * (1 / 10000000) ∧
    getDeltaPath c5Constraint Vec3.zero Vec3.zero =
      SpringDeltaResult.divided 0 1 := by
  constructor
  · simp only [Vec3.sub, Vec3.zero, Vec3.sizeSq]
    norm_num
  · simp only [getDeltaPath, c5Constraint, springBodyDyn, springBodyNoGeo,
      Bool.true_eq_false, false_and, if_false, if_true, ite_false, ite_true]
    norm_num [Vec3.sub, Vec3.zero, Vec3.sizeSq]

/-- C5 (amended): `GetDelta` guards the zero-total-inverse-mass
degeneracy — when neither body is dynamic it returns zero before any
division — but a near-zero endpoint separation is guarded only by the
assertion `check(Distance > 1e-7)`: whenever at least one body is
dynamic the function divides by the separation distance regardless of
its size, so a below-epsilon separation is an assertion failure rather
than a skipped correction. -/
theorem getDeltaPath_spec (c : SpringConstraintM) (w1 w2 : Vec3) :
    (c.body0.dynamic = false ∧ c.body1.dynamic = false →
      getDeltaPath c w1 w2 = SpringDeltaResult.zeroBothStatic) ∧
    (c.body0.dynamic = true ∨ c.body1.dynamic = true →
      getDeltaPath c w1 w2 =
        SpringDeltaResult.divided (Vec3.sub w2 w1).sizeSq
          ((if c.body0.dynamic then c.body0.invM else 0) +
           (if c.body1.dynamic then c.body1.invM else 0))) := by
  constructor
  · intro h
    simp [getDeltaPath, h.1, h.2]
  · intro h
    have hne : ¬ (c.body0.dynamic = false ∧ c.body1.dynamic = false) := by
      rcases h with h | h <;> simp [h]
    simp [getDeltaPath, hne]

/-- C5 amended-claim witness: the amended statement instantiated at a
constraint with a dynamic first body and coincident endpoints. -/
theorem getDeltaPath_spec_witness :
    getDeltaPath c5Constraint Vec3.zero Vec3.zero =
      SpringDeltaResult.divided (Vec3.sub Vec3.zero Vec3.zero).sizeSq
        ((if c5Constraint.body0.dynamic then c5Constraint.body0.invM else 0) +
         (if c5Constraint.body1.dynamic then c5Constraint.body1.invM else 0)) :=
  (getDeltaPath_spec c5Constraint Vec3.zero Vec3.zero).2 (Or.inl rfl)

end Chaos

namespace Chaos

/-!
## Particle store (`TPBDRigidsSOAs`)

From `PBDRigidsSOAs.h`.  Particles are identified by ids allocated in
creation order.  Pool membership (which typed SOA a particle currently
lives in) is determined by its kind and flags, so the embedding carries
the per-particle flags and the auxiliary index arrays
(`ActiveParticlesArray` and the clustered arrays) plus the handle array;
`ActiveParticlesView` is the snapshot that `UpdateViews` rebuilds from
`ActiveParticlesArray` after every mutation.  A failed `check(...)` is
modelled as `none` (fatal assertion), as is use of a dead handle.
-/

/-- Particle kind: which typed pool family the particle belongs to.
Clustered particles are dynamic (`AsDynamic()` is non-null for them). -/
inductive EParticleKind where
  | kindStatic
  | kindKinematic
  | kindDynamic
  | kindClustered
deriving DecidableEq, Repr

/-- The per-particle state read and written by the store operations. -/
structure ParticleData where
  kind : EParticleKind
  disabled : Bool
  sleeping : Bool
  v : Vec3
  w : Vec3
deriving DecidableEq, Repr

namespace ParticleData

/-- `AsDynamic() != nullptr`. -/
def isDynamic (d : ParticleData) : Bool :=
  d.kind = EParticleKind.kindDynamic || d.kind = EParticleKind.kindClustered

/-- `AsClustered() != nullptr`. -/
def isClustered (d : ParticleData) : Bool :=
  d.kind = EParticleKind.kindClustered

end ParticleData

/-- Creation parameters (`TPBDRigidParticleParameters`): the two members
the store reads. -/
structure ParticleParamsM where
  bDisabled : Bool
  bStartSleeping : Bool
deriving DecidableEq, Repr

/-- The store state. -/
structure TPBDRigidsSOAsM where
  nextId : ℕ
  dataMap : ℕ → ParticleData
  handles : List ℕ
  activeArray : List ℕ
  activeClusteredArray : List ℕ
  nonDisabledClusteredArray : List ℕ
  activeView : List ℕ

/-- `InsertToMapAndArray` (single-particle overload): append unless
already present. -/
def insertIdx (p : ℕ) (arr : List ℕ) : List ℕ :=
  if p ∈ arr then arr else arr ++ [p]

/-- `RemoveFromMapAndArray`: look up the particle's recorded index and
`RemoveAtSwap` it (the recorded index of a particle in a duplicate-free
array is its index in the array); no-op when absent. -/
def removeIdx (p : ℕ) (arr : List ℕ) : List ℕ :=
  if p ∈ arr then removeAtSwapList arr (arr.indexOf p) else arr

theorem mem_removeAtSwapList {α : Type} [DecidableEq α] {l : List α} {k : ℕ}
    {s : α} (hs : s ∈ removeAtSwapList l k) : s ∈ l := by
  unfold removeAtSwapList at hs
  cases hl : l.getLast? with
  | none => rw [hl] at hs; exact hs
  | some a =>
    rw [hl] at hs
    have hs2 : s ∈ l.set k a := List.Sublist.mem hs (List.dropLast_sublist _)
    rcases List.mem_or_eq_of_mem_set hs2 with h | rfl
    · exact h
    · exact List.mem_of_mem_getLast? hl

end Chaos

namespace Chaos

theorem exists_first_split {α : Type} [DecidableEq α] {p : α} {arr : List α}
    (h : p ∈ arr) :
    ∃ l1 l2, arr = l1 ++ p :: l2 ∧ p ∉ l1 ∧ arr.indexOf p = l1.length := by
  induction arr with
  | nil => simp at h
  | cons a tl ih =>
    by_cases hap : a = p
    · subst hap
      exact ⟨[], tl, rfl, by simp, List.indexOf_cons_self a tl⟩
    · have hp : p ∈ tl := by
        rcases List.mem_cons.mp h with rfl | h2
        · exact absurd rfl hap
        · exact h2
      obtain ⟨l1, l2, htl, hn, hidx⟩ := ih hp
      refine ⟨a :: l1, l2, by rw [htl]; rfl, ?_, ?_⟩
      · intro hmem
        rcases List.mem_cons.mp hmem with rfl | h2
        · exact hap rfl
        · exact hn h2
      · rw [List.indexOf_cons_ne tl (Ne.symm (by exact fun hpa => hap hpa.symm)),
          hidx]
        rfl

theorem removeIdx_perm_erase {p : ℕ} {arr : List ℕ} (h : p ∈ arr) :
    (removeIdx p arr).Perm (arr.erase p) := by
  obtain ⟨l1, l2, rfl, hn, hidx⟩ := exists_first_split h
  unfold removeIdx
  rw [if_pos h, hidx]
  have herase : (l1 ++ p :: l2).erase p = l1 ++ l2 := by
    rw [List.erase_append_right _ hn, List.erase_cons_head]
  rw [herase]
  rcases List.eq_nil_or_concat l2 with rfl | ⟨l2a, a, hl2⟩
  · rw [show l1 ++ [p] = l1 ++ [p] from rfl, removeAtSwapList_concat,
      List.set_eq_of_length_le (le_refl _)]
    simp
  · rw [List.concat_eq_append] at hl2
    subst hl2
    rw [show l1 ++ p :: (l2a ++ [a]) = (l1 ++ p :: l2a) ++ [a] by simp,
      removeAtSwapList_concat,
      List.set_append_right _ _ (le_refl _)]
    simp only [Nat.sub_self, List.set_cons_zero]
    exact List.Perm.append_left l1 (List.perm_append_singleton a l2a).symm

theorem removeIdx_subset {p : ℕ} {arr : List ℕ} {q : ℕ}
    (hq : q ∈ removeIdx p arr) : q ∈ arr := by
  unfold removeIdx at hq
  split_ifs at hq with h
  · exact mem_removeAtSwapList hq
  · exact hq

theorem removeIdx_nodup {p : ℕ} {arr : List ℕ} (h : arr.Nodup) :
    (removeIdx p arr).Nodup := by
  by_cases hp : p ∈ arr
  · exact (removeIdx_perm_erase hp).symm.nodup (h.erase p)
  · unfold removeIdx
    rw [if_neg hp]
    exact h

theorem mem_removeIdx_iff {p : ℕ} {arr : List ℕ} (h : arr.Nodup) (q : ℕ) :
    q ∈ removeIdx p arr ↔ (q ∈ arr ∧ q ≠ p) := by
  by_cases hp : p ∈ arr
  · rw [(removeIdx_perm_erase hp).mem_iff, List.Nodup.mem_erase_iff h]
    tauto
  · unfold removeIdx
    rw [if_neg hp]
    constructor
    · intro hq
      exact ⟨hq, fun hqp => hp (hqp ▸ hq)⟩
    · exact fun hq => hq.1

theorem mem_insertIdx_iff (p : ℕ) (arr : List ℕ) (q : ℕ) :
    q ∈ insertIdx p arr ↔ (q ∈ arr ∨ q = p) := by
  unfold insertIdx
  split_ifs with h
  · constructor
    · exact Or.inl
    · rintro (hq | rfl)
      · exact hq
      · exact h
  · simp [List.mem_append]

theorem insertIdx_nodup {p : ℕ} {arr : List ℕ} (h : arr.Nodup) :
    (insertIdx p arr).Nodup := by
  unfold insertIdx
  split_ifs with hp
  · exact h
  · exact h.append (List.nodup_singleton p) (by simp [List.disjoint_singleton, hp])

end Chaos

namespace Chaos

namespace TPBDRigidsSOAsM

/-- `UpdateViews`: rebuild the view snapshots from the backing arrays
(`ActiveParticlesView` is built from `ActiveParticlesArray`; the other
views are built from the pools, which the flags determine). -/
def updateViews (s : TPBDRigidsSOAsM) : TPBDRigidsSOAsM :=
  { s with activeView := s.activeArray }

/-- The ids allocated by the next `n`-particle creation. -/
def newIds (s : TPBDRigidsSOAsM) (n : ℕ) : List ℕ :=
  List.range' s.nextId n

/-- `CreateParticlesHelper`: allocate `n` slots and handles, with state
default-initialized from the creation parameters (velocities zero). -/
def createHelperS (kind : EParticleKind) (ps : ParticleParamsM) (n : ℕ)
    (s : TPBDRigidsSOAsM) : TPBDRigidsSOAsM :=
  ⟨s.nextId + n,
   fun q => if q ∈ s.newIds n then
       ⟨kind, ps.bDisabled, ps.bStartSleeping, Vec3.zero, Vec3.zero⟩
     else s.dataMap q,
   s.handles ++ s.newIds n,
   s.activeArray, s.activeClusteredArray, s.nonDisabledClusteredArray,
   s.activeView⟩

/-- `CreateStaticParticles`. -/
def createStaticParticles (n : ℕ) (ps : ParticleParamsM)
    (s : TPBDRigidsSOAsM) : TPBDRigidsSOAsM :=
  updateViews (createHelperS EParticleKind.kindStatic ps n s)

/-- `CreateKinematicParticles`. -/
def createKinematicParticles (n : ℕ) (ps : ParticleParamsM)
    (s : TPBDRigidsSOAsM) : TPBDRigidsSOAsM :=
  updateViews (createHelperS EParticleKind.kindKinematic ps n s)

/-- `CreateDynamicParticles`: allocate, then
`if (!Params.bStartSleeping) InsertToMapAndArray(Results, ...)` into the
active array (note: regardless of `bDisabled`), then `UpdateViews`. -/
def createDynamicParticles (n : ℕ) (ps : ParticleParamsM)
    (s : TPBDRigidsSOAsM) : TPBDRigidsSOAsM :=
  updateViews
    { createHelperS EParticleKind.kindDynamic ps n s with
      activeArray :=
        if ps.bStartSleeping then s.activeArray
        else s.activeArray ++ s.newIds n }

/-- `CreateClusteredParticles`: allocate; insert into the non-disabled
clustered array unless created disabled; insert into the active and
active-clustered arrays unless created sleeping; `UpdateViews`. -/
def createClusteredParticles (n : ℕ) (ps : ParticleParamsM)
    (s : TPBDRigidsSOAsM) : TPBDRigidsSOAsM :=
  updateViews
    { createHelperS EParticleKind.kindClustered ps n s with
      nonDisabledClusteredArray :=
        if ps.bDisabled then s.nonDisabledClusteredArray
        else s.nonDisabledClusteredArray ++ s.newIds n,
      activeArray :=
        if ps.bStartSleeping then s.activeArray
        else s.activeArray ++ s.newIds n,
      activeClusteredArray :=
        if ps.bStartSleeping then s.activeClusteredArray
        else s.activeClusteredArray ++ s.newIds n }

/-- `DisableParticle`: for a dynamic particle, set the disabled flag,
zero `V` and `W`, drop it from the clustered index arrays when clustered
(otherwise it moves to the disabled pool), and remove it from the active
array; non-dynamic particles just move to their disabled pool.  Always
ends with `UpdateViews`. -/
def disableParticle (p : ℕ) (s : TPBDRigidsSOAsM) : TPBDRigidsSOAsM :=
  if (s.dataMap p).isDynamic then
    updateViews
      { s with
        dataMap := fun q => if q = p then
            { s.dataMap p with disabled := true, v := Vec3.zero, w := Vec3.zero }
          else s.dataMap q,
        nonDisabledClusteredArray :=
          if (s.dataMap p).isClustered then
            removeIdx p s.nonDisabledClusteredArray
          else s.nonDisabledClusteredArray,
        activeClusteredArray :=
          if (s.dataMap p).isClustered then removeIdx p s.activeClusteredArray
          else s.activeClusteredArray,
        activeArray := removeIdx p s.activeArray }
  else
    updateViews
      { s with
        dataMap := fun q => if q = p then { s.dataMap p with disabled := true }
          else s.dataMap q }

/-- `EnableParticle`: for a dynamic particle, re-insert into the clustered
index arrays when clustered (otherwise move back to the matching dynamic
pool), insert into the active array unless sleeping, and clear the
disabled flag; non-dynamic particles move back to their enabled pool.
Always ends with `UpdateViews`. -/
def enableParticle (p : ℕ) (s : TPBDRigidsSOAsM) : TPBDRigidsSOAsM :=
  if (s.dataMap p).isDynamic then
    updateViews
      { s with
        dataMap := fun q => if q = p then { s.dataMap p with disabled := false }
          else s.dataMap q,
        nonDisabledClusteredArray :=
          if (s.dataMap p).isClustered then
            insertIdx p s.nonDisabledClusteredArray
          else s.nonDisabledClusteredArray,
        activeClusteredArray :=
          if (s.dataMap p).isClustered && !(s.dataMap p).sleeping then
            insertIdx p s.activeClusteredArray
          else s.activeClusteredArray,
        activeArray :=
          if (s.dataMap p).sleeping then s.activeArray
          else insertIdx p s.activeArray }
  else
    updateViews
      { s with
        dataMap := fun q => if q = p then { s.dataMap p with disabled := false }
          else s.dataMap q }

/-- `ActivateParticle`: asserts the particle is not disabled
(`check(!PBDRigid->Disabled())`, modelled as `none`), then inserts a
dynamic particle into the active array (and the active-clustered array
when clustered); `UpdateViews` runs in every surviving path. -/
def activateParticle (p : ℕ) (s : TPBDRigidsSOAsM) : Option TPBDRigidsSOAsM :=
  if (s.dataMap p).isDynamic then
    if (s.dataMap p).disabled then none
    else some (updateViews
      { s with
        activeClusteredArray :=
          if (s.dataMap p).isClustered then insertIdx p s.activeClusteredArray
          else s.activeClusteredArray,
        activeArray := insertIdx p s.activeArray })
  else some (updateViews s)

/-- `DeactivateParticle`: asserts the particle is not disabled, then
removes a dynamic particle from the active array (and the
active-clustered array when clustered); `UpdateViews` runs in every
surviving path. -/
def deactivateParticle (p : ℕ) (s : TPBDRigidsSOAsM) : Option TPBDRigidsSOAsM :=
  if (s.dataMap p).isDynamic then
    if (s.dataMap p).disabled then none
    else some (updateViews
      { s with
        activeClusteredArray :=
          if (s.dataMap p).isClustered then removeIdx p s.activeClusteredArray
          else s.activeClusteredArray,
        activeArray := removeIdx p s.activeArray })
  else some (updateViews s)

/-- `DestroyParticle`: asserts the particle is not clustered
(`check(Particle->AsClustered() == nullptr)`, modelled as `none`);
removes a dynamic particle from the active array; destroys the handle
with `DestroyHandleSwap` (swap-with-last compaction of the handle
array); `UpdateViews`. -/
def destroyParticle (p : ℕ) (s : TPBDRigidsSOAsM) : Option TPBDRigidsSOAsM :=
  if (s.dataMap p).isClustered then none
  else some (updateViews
    { s with
      activeArray :=
        if (s.dataMap p).isDynamic then removeIdx p s.activeArray
        else s.activeArray,
      handles := removeIdx p s.handles })

end TPBDRigidsSOAsM

/-- The particle-store operations of the public API. -/
inductive StoreOp where
  | createStatics (n : ℕ) (ps : ParticleParamsM)
  | createKinematics (n : ℕ) (ps : ParticleParamsM)
  | createDynamics (n : ℕ) (ps : ParticleParamsM)
  | createClustereds (n : ℕ) (ps : ParticleParamsM)
  | destroy (p : ℕ)
  | enable (p : ℕ)
  | disable (p : ℕ)
  | activate (p : ℕ)
  | deactivate (p : ℕ)
deriving DecidableEq, Repr

/-- One store operation.  Operations taking a particle handle require a
live handle (dereferencing a destroyed or never-created handle is a
caller bug, modelled as `none`), and a failed `check(...)` is `none`. -/
def storeStep (s : TPBDRigidsSOAsM) : StoreOp → Option TPBDRigidsSOAsM
  | StoreOp.createStatics n ps => some (s.createStaticParticles n ps)
  | StoreOp.createKinematics n ps => some (s.createKinematicParticles n ps)
  | StoreOp.createDynamics n ps => some (s.createDynamicParticles n ps)
  | StoreOp.createClustereds n ps => some (s.createClusteredParticles n ps)
  | StoreOp.destroy p =>
      if p ∈ s.handles then s.destroyParticle p else none
  | StoreOp.enable p =>
      if p ∈ s.handles then some (s.enableParticle p) else none
  | StoreOp.disable p =>
      if p ∈ s.handles then some (s.disableParticle p) else none
  | StoreOp.activate p =>
      if p ∈ s.handles then s.activateParticle p else none
  | StoreOp.deactivate p =>
      if p ∈ s.handles then s.deactivateParticle p else none

/-- Run a sequence of store operations; `none` as soon as one fails. -/
def runStore (s : TPBDRigidsSOAsM) : List StoreOp → Option TPBDRigidsSOAsM
  | [] => some s
  | op :: ops =>
    match storeStep s op with
    | some s2 => runStore s2 ops
    | none => none

/-- The freshly constructed store: empty pools, empty index arrays,
empty views. -/
def initialStore : TPBDRigidsSOAsM :=
  ⟨0, fun _ => ⟨EParticleKind.kindStatic, false, false, Vec3.zero, Vec3.zero⟩,
   [], [], [], [], []⟩

/-- Structural store invariants: duplicate-free handle and active arrays,
handles below the allocation cursor, active particles live and dynamic,
and the active view in sync with its backing array. -/
def StoreInv (s : TPBDRigidsSOAsM) : Prop :=
  s.handles.Nodup ∧
  s.activeArray.Nodup ∧
  (∀ p ∈ s.handles, p < s.nextId) ∧
  (∀ p ∈ s.activeArray, p ∈ s.handles) ∧
  (∀ p ∈ s.activeArray, (s.dataMap p).isDynamic = true) ∧
  s.activeView = s.activeArray

end Chaos

namespace Chaos

/-- The specification-level view of the active set, maintained alongside
the store by simple per-operation rules: which ids have been allocated,
which were created dynamic (or clustered), each particle's start-sleeping
flag, and the active set itself. -/
structure SpecActive where
  nextId : ℕ
  kindDyn : ℕ → Bool
  sleepFlag : ℕ → Bool
  active : ℕ → Bool

def specInit : SpecActive := ⟨0, fun _ => false, fun _ => false, fun _ => false⟩

/-- The specification-level transition: creation adds the new particles to
the active set exactly when not created sleeping (regardless of the
disabled flag); `Enable` adds a dynamic particle unless its sleeping flag
is set (and never removes); `Activate` adds it; `Disable`, `Deactivate`
and `Destroy` remove it. -/
def specStep (t : SpecActive) : StoreOp → SpecActive
  | StoreOp.createStatics n ps =>
      ⟨t.nextId + n,
       fun q => if q ∈ List.range' t.nextId n then false else t.kindDyn q,
       fun q => if q ∈ List.range' t.nextId n then ps.bStartSleeping
         else t.sleepFlag q,
       t.active⟩
  | StoreOp.createKinematics n ps =>
      ⟨t.nextId + n,
       fun q => if q ∈ List.range' t.nextId n then false else t.kindDyn q,
       fun q => if q ∈ List.range' t.nextId n then ps.bStartSleeping
         else t.sleepFlag q,
       t.active⟩
  | StoreOp.createDynamics n ps =>
      ⟨t.nextId + n,
       fun q => if q ∈ List.range' t.nextId n then true else t.kindDyn q,
       fun q => if q ∈ List.range' t.nextId n then ps.bStartSleeping
         else t.sleepFlag q,
       fun q => if q ∈ List.range' t.nextId n then !ps.bStartSleeping
         else t.active q⟩
  | StoreOp.createClustereds n ps =>
      ⟨t.nextId + n,
       fun q => if q ∈ List.range' t.nextId n then true else t.kindDyn q,
       fun q => if q ∈ List.range' t.nextId n then ps.bStartSleeping
         else t.sleepFlag q,
       fun q => if q ∈ List.range' t.nextId n then !ps.bStartSleeping
         else t.active q⟩
  | StoreOp.destroy p =>
      { t with active := fun q => if q = p then false else t.active q }
  | StoreOp.enable p =>
      if t.kindDyn p then
        { t with active := fun q => if q = p then (t.active p || !t.sleepFlag p)
            else t.active q }
      else t
  | StoreOp.disable p =>
      if t.kindDyn p then
        { t with active := fun q => if q = p then false else t.active q }
      else t
  | StoreOp.activate p =>
      if t.kindDyn p then
        { t with active := fun q => if q = p then true else t.active q }
      else t
  | StoreOp.deactivate p =>
      if t.kindDyn p then
        { t with active := fun q => if q = p then false else t.active q }
      else t

def specRun (t : SpecActive) : List StoreOp → SpecActive
  | [] => t
  | op :: ops => specRun (specStep t op) ops

/-- The coupling between the store and the specification-level view:
same allocation cursor, the active array realizes the spec active set,
and the spec's kind/sleep records agree with the store's data for live
particles. -/
def SpecCoupling (s : TPBDRigidsSOAsM) (t : SpecActive) : Prop :=
  t.nextId = s.nextId ∧
  (∀ p, t.active p = true ↔ p ∈ s.activeArray) ∧
  (∀ p ∈ s.handles, t.kindDyn p = (s.dataMap p).isDynamic ∧
    t.sleepFlag p = (s.dataMap p).sleeping)

theorem isDynamic_setFlags (d : ParticleData) (b : Bool) (v w : Vec3) :
    ({ d with disabled := b, v := v, w := w } : ParticleData).isDynamic
      = d.isDynamic := rfl

theorem storeStep_preserves (s : TPBDRigidsSOAsM) (t : SpecActive)
    (op : StoreOp) (s' : TPBDRigidsSOAsM) (hInv : StoreInv s)
    (hC : SpecCoupling s t) (h : storeStep s op = some s') :
    StoreInv s' ∧ SpecCoupling s' (specStep t op) := by
  obtain ⟨hndl, hact, hlt, hsub, hdyn, hview⟩ := hInv
  obtain ⟨hnid, hactive, hkinds⟩ := hC
  have hIdNodup : ∀ n : ℕ, (s.newIds n).Nodup := fun n =>
    List.nodup_range' s.nextId n
  have hIdFresh : ∀ n : ℕ, ∀ q ∈ s.newIds n, s.nextId ≤ q := fun n q hq =>
    (List.mem_range'_1.mp hq).1
  have hIdLt : ∀ n : ℕ, ∀ q ∈ s.newIds n, q < s.nextId + n := fun n q hq =>
    (List.mem_range'_1.mp hq).2
  have hHdisj : ∀ n : ℕ, s.handles.Disjoint (s.newIds n) := fun n q hq hq2 =>
    absurd (hlt q hq) (not_lt.mpr (hIdFresh n q hq2))
  have hAdisj : ∀ n : ℕ, s.activeArray.Disjoint (s.newIds n) :=
    fun n q hq hq2 => hHdisj n (hsub q hq) hq2
  have hAnotin : ∀ n : ℕ, ∀ q ∈ s.newIds n, q ∉ s.activeArray :=
    fun n q hq hqa => hAdisj n hqa hq
  have hHnotin : ∀ n : ℕ, ∀ q ∈ s.newIds n, q ∉ s.handles :=
    fun n q hq hqa => hHdisj n hqa hq
  have hrange : ∀ n : ℕ, List.range' t.nextId n = s.newIds n := by
    intro n
    rw [hnid]
    rfl
  cases op with
  | createStatics n ps =>
    obtain rfl := Option.some_inj.mp h
    refine ⟨⟨?_, hact, ?_, ?_, ?_, rfl⟩, ?_, ?_, ?_⟩
    · exact hndl.append (hIdNodup n) (hHdisj n)
    · intro p hp
      rcases List.mem_append.mp hp with hp | hp
      · exact lt_of_lt_of_le (hlt p hp) (Nat.le_add_right _ _)
      · exact hIdLt n p hp
    · intro p hp
      exact List.mem_append_left _ (hsub p hp)
    · intro p hp
      have hpn : p ∉ s.newIds n := fun hq => hAnotin n p hq (by exact hp)
      simp only [TPBDRigidsSOAsM.createStaticParticles,
        TPBDRigidsSOAsM.updateViews, TPBDRigidsSOAsM.createHelperS]
      rw [if_neg hpn]
      exact hdyn p hp
    · exact congrArg (fun m => m + n) hnid
    · intro p
      exact hactive p
    · intro p hp
      simp only [TPBDRigidsSOAsM.createStaticParticles,
        TPBDRigidsSOAsM.updateViews, TPBDRigidsSOAsM.createHelperS] at hp ⊢
      simp only [specStep]
      rw [hrange n]
      rcases List.mem_append.mp hp with hp | hp
      · have hpn : p ∉ s.newIds n := hHdisj n hp
        rw [if_neg hpn, if_neg hpn, if_neg hpn]
        exact hkinds p hp
      · rw [if_pos hp, if_pos hp, if_pos hp]
        exact ⟨rfl, rfl⟩
  | createKinematics n ps =>
    obtain rfl := Option.some_inj.mp h
    refine ⟨⟨?_, hact, ?_, ?_, ?_, rfl⟩, ?_, ?_, ?_⟩
    · exact hndl.append (hIdNodup n) (hHdisj n)
    · intro p hp
      rcases List.mem_append.mp hp with hp | hp
      · exact lt_of_lt_of_le (hlt p hp) (Nat.le_add_right _ _)
      · exact hIdLt n p hp
    · intro p hp
      exact List.mem_append_left _ (hsub p hp)
    · intro p hp
      have hpn : p ∉ s.newIds n := fun hq => hAnotin n p hq (by exact hp)
      simp only [TPBDRigidsSOAsM.createKinematicParticles,
        TPBDRigidsSOAsM.updateViews, TPBDRigidsSOAsM.createHelperS]
      rw [if_neg hpn]
      exact hdyn p hp
    · exact congrArg (fun m => m + n) hnid
    · intro p
      exact hactive p
    · intro p hp
      simp only [TPBDRigidsSOAsM.createKinematicParticles,
        TPBDRigidsSOAsM.updateViews, TPBDRigidsSOAsM.createHelperS] at hp ⊢
      simp only [specStep]
      rw [hrange n]
      rcases List.mem_append.mp hp with hp | hp
      · have hpn : p ∉ s.newIds n := hHdisj n hp
        rw [if_neg hpn, if_neg hpn, if_neg hpn]
        exact hkinds p hp
      · rw [if_pos hp, if_pos hp, if_pos hp]
        exact ⟨rfl, rfl⟩
  | createDynamics n ps =>
    obtain rfl := Option.some_inj.mp h
    have harr : (s.createDynamicParticles n ps).activeArray =
        if ps.bStartSleeping then s.activeArray
        else s.activeArray ++ s.newIds n := rfl
    refine ⟨⟨?_, ?_, ?_, ?_, ?_, rfl⟩, ?_, ?_, ?_⟩
    · exact hndl.append (hIdNodup n) (hHdisj n)
    · rw [harr]
      split_ifs
      · exact hact
      · exact hact.append (hIdNodup n) (hAdisj n)
    · intro p hp
      rcases List.mem_append.mp hp with hp | hp
      · exact lt_of_lt_of_le (hlt p hp) (Nat.le_add_right _ _)
      · exact hIdLt n p hp
    · intro p hp
      rw [harr] at hp
      split_ifs at hp with hsl
      · exact List.mem_append_left _ (hsub p hp)
      · rcases List.mem_append.mp hp with hp | hp
        · exact List.mem_append_left _ (hsub p hp)
        · exact List.mem_append_right _ hp
    · intro p hp
      rw [harr] at hp
      simp only [TPBDRigidsSOAsM.createDynamicParticles,
        TPBDRigidsSOAsM.updateViews, TPBDRigidsSOAsM.createHelperS]
      by_cases hpn : p ∈ s.newIds n
      · rw [if_pos hpn]
        rfl
      · rw [if_neg hpn]
        split_ifs at hp with hsl
        · exact hdyn p hp
        · rcases List.mem_append.mp hp with hp | hp
          · exact hdyn p hp
          · exact absurd hp hpn
    · exact congrArg (fun m => m + n) hnid
    · intro p
      rw [harr]
      simp only [specStep, hrange n]
      by_cases hpn : p ∈ s.newIds n
      · rw [if_pos hpn]
        have hpa : p ∉ s.activeArray := hAnotin n p hpn
        cases hsl : ps.bStartSleeping with
        | true => simp [hsl, hpa]
        | false => simp [hsl, hpn, hpa]
      · rw [if_neg hpn]
        split_ifs with hsl
        · exact hactive p
        · rw [hactive p]
          constructor
          · exact fun hp => List.mem_append_left _ hp
          · intro hp
            rcases List.mem_append.mp hp with hp | hp
            · exact hp
            · exact absurd hp hpn
    · intro p hp
      simp only [TPBDRigidsSOAsM.createDynamicParticles,
        TPBDRigidsSOAsM.updateViews, TPBDRigidsSOAsM.createHelperS] at hp ⊢
      simp only [specStep, hrange n]
      rcases List.mem_append.mp hp with hp | hp
      · have hpn : p ∉ s.newIds n := hHdisj n hp
        rw [if_neg hpn, if_neg hpn, if_neg hpn]
        exact hkinds p hp
      · rw [if_pos hp, if_pos hp, if_pos hp]
        exact ⟨rfl, rfl⟩
  | createClustereds n ps =>
    obtain rfl := Option.some_inj.mp h
    have harr : (s.createClusteredParticles n ps).activeArray =
        if ps.bStartSleeping then s.activeArray
        else s.activeArray ++ s.newIds n := rfl
    refine ⟨⟨?_, ?_, ?_, ?_, ?_, rfl⟩, ?_, ?_, ?_⟩
    · exact hndl.append (hIdNodup n) (hHdisj n)
    · rw [harr]
      split_ifs
      · exact hact
      · exact hact.append (hIdNodup n) (hAdisj n)
    · intro p hp
      rcases List.mem_append.mp hp with hp | hp
      · exact lt_of_lt_of_le (hlt p hp) (Nat.le_add_right _ _)
      · exact hIdLt n p hp
    · intro p hp
      rw [harr] at hp
      split_ifs at hp with hsl
      · exact List.mem_append_left _ (hsub p hp)
      · rcases List.mem_append.mp hp with hp | hp
        · exact List.mem_append_left _ (hsub p hp)
        · exact List.mem_append_right _ hp
    · intro p hp
      rw [harr] at hp
      simp only [TPBDRigidsSOAsM.createClusteredParticles,
        TPBDRigidsSOAsM.updateViews, TPBDRigidsSOAsM.createHelperS]
      by_cases hpn : p ∈ s.newIds n
      · rw [if_pos hpn]
        rfl
      · rw [if_neg hpn]
        split_ifs at hp with hsl
        · exact hdyn p hp
        · rcases List.mem_append.mp hp with hp | hp
          · exact hdyn p hp
          · exact absurd hp hpn
    · exact congrArg (fun m => m + n) hnid
    · intro p
      rw [harr]
      simp only [specStep, hrange n]
      by_cases hpn : p ∈ s.newIds n
      · rw [if_pos hpn]
        have hpa : p ∉ s.activeArray := hAnotin n p hpn
        cases hsl : ps.bStartSleeping with
        | true => simp [hsl, hpa]
        | false => simp [hsl, hpn, hpa]
      · rw [if_neg hpn]
        split_ifs with hsl
        · exact hactive p
        · rw [hactive p]
          constructor
          · exact fun hp => List.mem_append_left _ hp
          · intro hp
            rcases List.mem_append.mp hp with hp | hp
            · exact hp
            · exact absurd hp hpn
    · intro p hp
      simp only [TPBDRigidsSOAsM.createClusteredParticles,
        TPBDRigidsSOAsM.updateViews, TPBDRigidsSOAsM.createHelperS] at hp ⊢
      simp only [specStep, hrange n]
      rcases List.mem_append.mp hp with hp | hp
      · have hpn : p ∉ s.newIds n := hHdisj n hp
        rw [if_neg hpn, if_neg hpn, if_neg hpn]
        exact hkinds p hp
      · rw [if_pos hp, if_pos hp, if_pos hp]
        exact ⟨rfl, rfl⟩
  | destroy p =>
    simp only [storeStep] at h
    split_ifs at h with hpl
    simp only [TPBDRigidsSOAsM.destroyParticle] at h
    by_cases hcl : (s.dataMap p).isClustered = true
    · rw [if_pos hcl] at h
      exact absurd h (by simp)
    · rw [if_neg hcl] at h
      obtain rfl := Option.some_inj.mp h
      refine ⟨⟨removeIdx_nodup hndl, ?_, ?_, ?_, ?_, rfl⟩, hnid, ?_, ?_⟩
      · show (if (s.dataMap p).isDynamic = true then removeIdx p s.activeArray
            else s.activeArray).Nodup
        split_ifs
        · exact removeIdx_nodup hact
        · exact hact
      · intro q hq
        exact lt_of_lt_of_le (hlt q (removeIdx_subset hq)) (le_refl _)
      · intro q hq
        rw [show (TPBDRigidsSOAsM.updateViews
            { s with
              activeArray := if (s.dataMap p).isDynamic = true then
                  removeIdx p s.activeArray else s.activeArray,
              handles := removeIdx p s.handles }).activeArray =
            (if (s.dataMap p).isDynamic = true then removeIdx p s.activeArray
              else s.activeArray) from rfl] at hq
        split_ifs at hq with hdq
        · obtain ⟨hq1, hq2⟩ := (mem_removeIdx_iff hact q).mp hq
          exact (mem_removeIdx_iff hndl q).mpr ⟨hsub q hq1, hq2⟩
        · have hqp : q ≠ p := fun hqp => hdq (hqp ▸ hdyn q hq)
          exact (mem_removeIdx_iff hndl q).mpr ⟨hsub q hq, hqp⟩
      · intro q hq
        rw [show (TPBDRigidsSOAsM.updateViews
            { s with
              activeArray := if (s.dataMap p).isDynamic = true then
                  removeIdx p s.activeArray else s.activeArray,
              handles := removeIdx p s.handles }).activeArray =
            (if (s.dataMap p).isDynamic = true then removeIdx p s.activeArray
              else s.activeArray) from rfl] at hq
        split_ifs at hq with hdq
        · exact hdyn q (removeIdx_subset hq)
        · exact hdyn q hq
      · intro q
        simp only [specStep]
        rw [show (TPBDRigidsSOAsM.updateViews
            { s with
              activeArray := if (s.dataMap p).isDynamic = true then
                  removeIdx p s.activeArray else s.activeArray,
              handles := removeIdx p s.handles }).activeArray =
            (if (s.dataMap p).isDynamic = true then removeIdx p s.activeArray
              else s.activeArray) from rfl]
        by_cases hqp : q = p
        · subst hqp
          simp only [if_pos rfl]
          constructor
          · intro hfalse
            exact absurd hfalse (by simp)
          · intro hq
            split_ifs at hq with hdq
            · exact absurd ((mem_removeIdx_iff hact q).mp hq).2 (by simp)
            · exact absurd (hdyn q hq) (by simp [hdq])
        · rw [if_neg hqp]
          split_ifs with hdq
          · rw [hactive q, mem_removeIdx_iff hact q]
            exact ⟨fun hq => ⟨hq, hqp⟩, fun hq => hq.1⟩
          · exact hactive q
      · intro q hq
        exact hkinds q (removeIdx_subset hq)
  | enable p =>
    simp only [storeStep] at h
    split_ifs at h with hpl
    obtain rfl := Option.some_inj.mp h
    have hkp := hkinds p hpl
    by_cases hdynp : (s.dataMap p).isDynamic = true
    · have hAA : (TPBDRigidsSOAsM.enableParticle p s).activeArray =
          if (s.dataMap p).sleeping = true then s.activeArray
          else insertIdx p s.activeArray := by
        simp only [TPBDRigidsSOAsM.enableParticle, if_pos hdynp]
        rfl
      have hVV : (TPBDRigidsSOAsM.enableParticle p s).activeView =
          (TPBDRigidsSOAsM.enableParticle p s).activeArray := by
        simp only [TPBDRigidsSOAsM.enableParticle, if_pos hdynp]
        rfl
      have hHH : (TPBDRigidsSOAsM.enableParticle p s).handles = s.handles := by
        simp only [TPBDRigidsSOAsM.enableParticle, if_pos hdynp]
        rfl
      have hNX : (TPBDRigidsSOAsM.enableParticle p s).nextId = s.nextId := by
        simp only [TPBDRigidsSOAsM.enableParticle, if_pos hdynp]
        rfl
      have hDM : (TPBDRigidsSOAsM.enableParticle p s).dataMap = fun q =>
          if q = p then { s.dataMap p with disabled := false }
          else s.dataMap q := by
        simp only [TPBDRigidsSOAsM.enableParticle, if_pos hdynp]
        rfl
      have hDMk : ∀ q, ((TPBDRigidsSOAsM.enableParticle p s).dataMap q).isDynamic
            = (s.dataMap q).isDynamic ∧
          ((TPBDRigidsSOAsM.enableParticle p s).dataMap q).sleeping
            = (s.dataMap q).sleeping := by
        intro q
        rw [hDM]
        dsimp only
        by_cases hqp : q = p
        · subst hqp
          simp only [if_pos rfl]
          exact ⟨rfl, rfl⟩
        · rw [if_neg hqp]
          exact ⟨rfl, rfl⟩
      simp only [specStep, hkp.1, hdynp, if_true]
      refine ⟨⟨?_, ?_, ?_, ?_, ?_, ?_⟩, ?_, ?_, ?_⟩
      · rw [hHH]
        exact hndl
      · rw [hAA]
        split_ifs
        · exact hact
        · exact insertIdx_nodup hact
      · rw [hHH, hNX]
        exact hlt
      · intro q hq
        rw [hAA] at hq
        rw [hHH]
        split_ifs at hq with hsl
        · exact hsub q hq
        · rcases (mem_insertIdx_iff p s.activeArray q).mp hq with hq | rfl
          · exact hsub q hq
          · exact hpl
      · intro q hq
        rw [hAA] at hq
        rw [(hDMk q).1]
        split_ifs at hq with hsl
        · exact hdyn q hq
        · rcases (mem_insertIdx_iff p s.activeArray q).mp hq with hq | rfl
          · exact hdyn q hq
          · exact hdynp
      · exact hVV
      · rw [hNX]
        exact hnid
      · intro q
        rw [hAA]
        dsimp only
        by_cases hqp : q = p
        · subst hqp
          simp only [if_pos rfl, hkp.2]
          cases hsl : (s.dataMap q).sleeping with
          | true =>
            simp only [if_pos rfl, Bool.not_true, Bool.or_false]
            exact hactive q
          | false =>
            simp only [Bool.not_false, Bool.or_true,
              if_neg (by simp : ¬ (false = true))]
            simp [mem_insertIdx_iff]
        · rw [if_neg hqp]
          split_ifs with hsl
          · exact hactive q
          · rw [hactive q, mem_insertIdx_iff]
            exact ⟨Or.inl, fun hq => hq.elim id fun hq2 => absurd hq2 hqp⟩
      · intro q hq
        rw [hHH] at hq
        rw [(hDMk q).1, (hDMk q).2]
        exact hkinds q hq
    · have hAA : (TPBDRigidsSOAsM.enableParticle p s).activeArray =
          s.activeArray := by
        simp only [TPBDRigidsSOAsM.enableParticle, if_neg hdynp]
        rfl
      have hVV : (TPBDRigidsSOAsM.enableParticle p s).activeView =
          (TPBDRigidsSOAsM.enableParticle p s).activeArray := by
        simp only [TPBDRigidsSOAsM.enableParticle, if_neg hdynp]
        rfl
      have hHH : (TPBDRigidsSOAsM.enableParticle p s).handles = s.handles := by
        simp only [TPBDRigidsSOAsM.enableParticle, if_neg hdynp]
        rfl
      have hNX : (TPBDRigidsSOAsM.enableParticle p s).nextId = s.nextId := by
        simp only [TPBDRigidsSOAsM.enableParticle, if_neg hdynp]
        rfl
      have hDM : (TPBDRigidsSOAsM.enableParticle p s).dataMap = fun q =>
          if q = p then { s.dataMap p with disabled := false }
          else s.dataMap q := by
        simp only [TPBDRigidsSOAsM.enableParticle, if_neg hdynp]
        rfl
      have hDMk : ∀ q, ((TPBDRigidsSOAsM.enableParticle p s).dataMap q).isDynamic
            = (s.dataMap q).isDynamic ∧
          ((TPBDRigidsSOAsM.enableParticle p s).dataMap q).sleeping
            = (s.dataMap q).sleeping := by
        intro q
        rw [hDM]
        dsimp only
        by_cases hqp : q = p
        · subst hqp
          simp only [if_pos rfl]
          exact ⟨rfl, rfl⟩
        · rw [if_neg hqp]
          exact ⟨rfl, rfl⟩
      have hkf : t.kindDyn p = false := by
        rw [hkp.1]
        simpa using hdynp
      simp only [specStep, hkf, Bool.false_eq_true, if_false]
      refine ⟨⟨?_, ?_, ?_, ?_, ?_, ?_⟩, ?_, ?_, ?_⟩
      · rw [hHH]
        exact hndl
      · rw [hAA]
        exact hact
      · rw [hHH, hNX]
        exact hlt
      · intro q hq
        rw [hAA] at hq
        rw [hHH]
        exact hsub q hq
      · intro q hq
        rw [hAA] at hq
        rw [(hDMk q).1]
        exact hdyn q hq
      · exact hVV
      · rw [hNX]
        exact hnid
      · intro q
        rw [hAA]
        exact hactive q
      · intro q hq
        rw [hHH] at hq
        rw [(hDMk q).1, (hDMk q).2]
        exact hkinds q hq
  | disable p =>
    simp only [storeStep] at h
    split_ifs at h with hpl
    obtain rfl := Option.some_inj.mp h
    have hkp := hkinds p hpl
    by_cases hdynp : (s.dataMap p).isDynamic = true
    · have hAA : (TPBDRigidsSOAsM.disableParticle p s).activeArray =
          removeIdx p s.activeArray := by
        simp only [TPBDRigidsSOAsM.disableParticle, if_pos hdynp]
        rfl
      have hVV : (TPBDRigidsSOAsM.disableParticle p s).activeView =
          (TPBDRigidsSOAsM.disableParticle p s).activeArray := by
        simp only [TPBDRigidsSOAsM.disableParticle, if_pos hdynp]
        rfl
      have hHH : (TPBDRigidsSOAsM.disableParticle p s).handles = s.handles := by
        simp only [TPBDRigidsSOAsM.disableParticle, if_pos hdynp]
        rfl
      have hNX : (TPBDRigidsSOAsM.disableParticle p s).nextId = s.nextId := by
        simp only [TPBDRigidsSOAsM.disableParticle, if_pos hdynp]
        rfl
      have hDM : (TPBDRigidsSOAsM.disableParticle p s).dataMap = fun q =>
          if q = p then
            { s.dataMap p with disabled := true, v := Vec3.zero, w := Vec3.zero }
          else s.dataMap q := by
        simp only [TPBDRigidsSOAsM.disableParticle, if_pos hdynp]
        rfl
      have hDMk : ∀ q, ((TPBDRigidsSOAsM.disableParticle p s).dataMap q).isDynamic
            = (s.dataMap q).isDynamic ∧
          ((TPBDRigidsSOAsM.disableParticle p s).dataMap q).sleeping
            = (s.dataMap q).sleeping := by
        intro q
        rw [hDM]
        dsimp only
        by_cases hqp : q = p
        · subst hqp
          simp only [if_pos rfl]
          exact ⟨rfl, rfl⟩
        · rw [if_neg hqp]
          exact ⟨rfl, rfl⟩
      simp only [specStep, hkp.1, hdynp, if_true]
      refine ⟨⟨?_, ?_, ?_, ?_, ?_, ?_⟩, ?_, ?_, ?_⟩
      · rw [hHH]
        exact hndl
      · rw [hAA]
        exact removeIdx_nodup hact
      · rw [hHH, hNX]
        exact hlt
      · intro q hq
        rw [hAA] at hq
        rw [hHH]
        exact hsub q (removeIdx_subset hq)
      · intro q hq
        rw [hAA] at hq
        rw [(hDMk q).1]
        exact hdyn q (removeIdx_subset hq)
      · exact hVV
      · rw [hNX]
        exact hnid
      · intro q
        rw [hAA]
        dsimp only
        by_cases hqp : q = p
        · subst hqp
          rw [if_pos rfl]
          constructor
          · intro hfalse
            exact absurd hfalse (by simp)
          · intro hq
            exact absurd ((mem_removeIdx_iff hact q).mp hq).2 (by simp)
        · rw [if_neg hqp, hactive q, mem_removeIdx_iff hact q]
          exact ⟨fun hq => ⟨hq, hqp⟩, fun hq => hq.1⟩
      · intro q hq
        rw [hHH] at hq
        rw [(hDMk q).1, (hDMk q).2]
        exact hkinds q hq
    · have hAA : (TPBDRigidsSOAsM.disableParticle p s).activeArray =
          s.activeArray := by
        simp only [TPBDRigidsSOAsM.disableParticle, if_neg hdynp]
        rfl
      have hVV : (TPBDRigidsSOAsM.disableParticle p s).activeView =
          (TPBDRigidsSOAsM.disableParticle p s).activeArray := by
        simp only [TPBDRigidsSOAsM.disableParticle, if_neg hdynp]
        rfl
      have hHH : (TPBDRigidsSOAsM.disableParticle p s).handles = s.handles := by
        simp only [TPBDRigidsSOAsM.disableParticle, if_neg hdynp]
        rfl
      have hNX : (TPBDRigidsSOAsM.disableParticle p s).nextId = s.nextId := by
        simp only [TPBDRigidsSOAsM.disableParticle, if_neg hdynp]
        rfl
      have hDM : (TPBDRigidsSOAsM.disableParticle p s).dataMap = fun q =>
          if q = p then { s.dataMap p with disabled := true }
          else s.dataMap q := by
        simp only [TPBDRigidsSOAsM.disableParticle, if_neg hdynp]
        rfl
      have hDMk : ∀ q, ((TPBDRigidsSOAsM.disableParticle p s).dataMap q).isDynamic
            = (s.dataMap q).isDynamic ∧
          ((TPBDRigidsSOAsM.disableParticle p s).dataMap q).sleeping
            = (s.dataMap q).sleeping := by
        intro q
        rw [hDM]
        dsimp only
        by_cases hqp : q = p
        · subst hqp
          simp only [if_pos rfl]
          exact ⟨rfl, rfl⟩
        · rw [if_neg hqp]
          exact ⟨rfl, rfl⟩
      have hkf : t.kindDyn p = false := by
        rw [hkp.1]
        simpa using hdynp
      simp only [specStep, hkf, Bool.false_eq_true, if_false]
      refine ⟨⟨?_, ?_, ?_, ?_, ?_, ?_⟩, ?_, ?_, ?_⟩
      · rw [hHH]
        exact hndl
      · rw [hAA]
        exact hact
      · rw [hHH, hNX]
        exact hlt
      · intro q hq
        rw [hAA] at hq
        rw [hHH]
        exact hsub q hq
      · intro q hq
        rw [hAA] at hq
        rw [(hDMk q).1]
        exact hdyn q hq
      · exact hVV
      · rw [hNX]
        exact hnid
      · intro q
        rw [hAA]
        exact hactive q
      · intro q hq
        rw [hHH] at hq
        rw [(hDMk q).1, (hDMk q).2]
        exact hkinds q hq
  | activate p =>
    simp only [storeStep] at h
    split_ifs at h with hpl
    have hkp := hkinds p hpl
    simp only [TPBDRigidsSOAsM.activateParticle] at h
    by_cases hdynp : (s.dataMap p).isDynamic = true
    · rw [if_pos hdynp] at h
      by_cases hdis : (s.dataMap p).disabled = true
      · rw [if_pos hdis] at h
        exact absurd h (by simp)
      · rw [if_neg hdis] at h
        obtain rfl := Option.some_inj.mp h
        simp only [specStep, hkp.1, hdynp, if_true]
        refine ⟨⟨hndl, insertIdx_nodup hact, hlt, ?_, ?_, rfl⟩, hnid, ?_, hkinds⟩
        · intro q hq
          rcases (mem_insertIdx_iff p s.activeArray q).mp hq with hq | rfl
          · exact hsub q hq
          · exact hpl
        · intro q hq
          rcases (mem_insertIdx_iff p s.activeArray q).mp hq with hq | rfl
          · exact hdyn q hq
          · exact hdynp
        · intro q
          dsimp only
          by_cases hqp : q = p
          · subst hqp
            rw [if_pos rfl]
            exact ⟨fun _ => (mem_insertIdx_iff _ s.activeArray _).mpr
              (Or.inr rfl), fun _ => rfl⟩
          · rw [if_neg hqp, hactive q]
            show _ ↔ q ∈ insertIdx p s.activeArray
            rw [mem_insertIdx_iff]
            exact ⟨Or.inl, fun hq => hq.elim id fun hq2 => absurd hq2 hqp⟩
    · rw [if_neg hdynp] at h
      obtain rfl := Option.some_inj.mp h
      have hkf : t.kindDyn p = false := by
        rw [hkp.1]
        simpa using hdynp
      simp only [specStep, hkf, Bool.false_eq_true, if_false]
      exact ⟨⟨hndl, hact, hlt, hsub, hdyn, rfl⟩, hnid, hactive, hkinds⟩
  | deactivate p =>
    simp only [storeStep] at h
    split_ifs at h with hpl
    have hkp := hkinds p hpl
    simp only [TPBDRigidsSOAsM.deactivateParticle] at h
    by_cases hdynp : (s.dataMap p).isDynamic = true
    · rw [if_pos hdynp] at h
      by_cases hdis : (s.dataMap p).disabled = true
      · rw [if_pos hdis] at h
        exact absurd h (by simp)
      · rw [if_neg hdis] at h
        obtain rfl := Option.some_inj.mp h
        simp only [specStep, hkp.1, hdynp, if_true]
        refine ⟨⟨hndl, removeIdx_nodup hact, hlt, ?_, ?_, rfl⟩, hnid, ?_, hkinds⟩
        · intro q hq
          exact hsub q (removeIdx_subset hq)
        · intro q hq
          exact hdyn q (removeIdx_subset hq)
        · intro q
          dsimp only
          by_cases hqp : q = p
          · subst hqp
            rw [if_pos rfl]
            constructor
            · intro hfalse
              exact absurd hfalse (by simp)
            · intro hq
              exact absurd ((mem_removeIdx_iff hact q).mp hq).2 (by simp)
          · rw [if_neg hqp, hactive q]
            show _ ↔ q ∈ removeIdx p s.activeArray
            rw [mem_removeIdx_iff hact q]
            exact ⟨fun hq => ⟨hq, hqp⟩, fun hq => hq.1⟩
    · rw [if_neg hdynp] at h
      obtain rfl := Option.some_inj.mp h
      have hkf : t.kindDyn p = false := by
        rw [hkp.1]
        simpa using hdynp
      simp only [specStep, hkf, Bool.false_eq_true, if_false]
      exact ⟨⟨hndl, hact, hlt, hsub, hdyn, rfl⟩, hnid, hactive, hkinds⟩

end Chaos

namespace Chaos

theorem initialStore_inv : StoreInv initialStore := by
  refine ⟨List.nodup_nil, List.nodup_nil, ?_, ?_, ?_, rfl⟩ <;>
    intro p hp <;> simp [initialStore] at hp

theorem initialStore_coupling : SpecCoupling initialStore specInit := by
  refine ⟨rfl, ?_, ?_⟩
  · intro p
    simp [initialStore, specInit]
  · intro p hp
    simp [initialStore] at hp

theorem runStore_preserves (ops : List StoreOp) :
    ∀ (s : TPBDRigidsSOAsM) (t : SpecActive) (s' : TPBDRigidsSOAsM),
      StoreInv s → SpecCoupling s t → runStore s ops = some s' →
      StoreInv s' ∧ SpecCoupling s' (specRun t ops) := by
  induction ops with
  | nil =>
    intro s t s' hI hC h
    obtain rfl := Option.some_inj.mp h
    exact ⟨hI, hC⟩
  | cons op ops ih =>
    intro s t s' hI hC h
    cases hstep : storeStep s op with
    | none =>
      rw [runStore, hstep] at h
      exact absurd h (by simp)
    | some s2 =>
      rw [runStore, hstep] at h
      obtain ⟨hI2, hC2⟩ := storeStep_preserves s t op s2 hI hC hstep
      exact ih s2 (specStep t op) s' hI2 hC2 h

/-- The sequence of calls of the C2 counterexample: create one dynamic
particle that is disabled but not start-sleeping. -/
def c2Ops : List StoreOp :=
  [StoreOp.createDynamics 1 ⟨true, false⟩]

/-- The store after running `c2Ops`. -/
def c2State : TPBDRigidsSOAsM :=
  TPBDRigidsSOAsM.createDynamicParticles 1 ⟨true, false⟩ initialStore

/-- C2 counterexample: `GetActiveParticlesView()` does NOT contain exactly
the dynamic particles that are enabled and active:
`CreateDynamicParticles` inserts its new particles into the active array
whenever `bStartSleeping` is false, without consulting `bDisabled`, so a
particle created disabled-but-awake appears in the active view while its
disabled flag is set. -/
theorem createDisabled_in_activeView :
    runStore initialStore c2Ops = some c2State ∧
    0 ∈ c2State.activeView ∧
    (c2State.dataMap 0).disabled = true ∧
    (c2State.dataMap 0).isDynamic = true := by
  refine ⟨rfl, ?_, ?_, ?_⟩ <;>
    simp [c2State, TPBDRigidsSOAsM.createDynamicParticles,
      TPBDRigidsSOAsM.updateViews, TPBDRigidsSOAsM.createHelperS,
      TPBDRigidsSOAsM.newIds, initialStore, List.range',
      ParticleData.isDynamic]

/-- C2 (amended): after any finite successful sequence of store
operations starting from the fresh store, `GetActiveParticlesView()` is
in sync with its backing array with no rebuild step required by the
caller, and contains exactly the particles of the incrementally
maintained active set described by the specification-level rules
(`specStep`): creation adds the new particles exactly when not created
sleeping — regardless of the disabled flag — `Enable` adds a non-sleeping
dynamic particle, `Activate` adds it, and `Disable` / `Deactivate` /
`Destroy` remove it. -/
theorem activeView_eq_specActive (ops : List StoreOp) (s : TPBDRigidsSOAsM)
    (h : runStore initialStore ops = some s) :
    s.activeView = s.activeArray ∧
    ∀ p : ℕ, p ∈ s.activeView ↔ (specRun specInit ops).active p = true := by
  obtain ⟨hI, hC⟩ := runStore_preserves ops initialStore specInit s
    initialStore_inv initialStore_coupling h
  obtain ⟨h1, h2, h3, h4, h5, hview⟩ := hI
  obtain ⟨hn, hactive, hk⟩ := hC
  refine ⟨hview, fun p => ?_⟩
  rw [hview]
  exact (hactive p).symm

/-- C2 amended-claim witness: the correspondence instantiated at the
concrete call sequence `c2Ops`. -/
theorem activeView_eq_specActive_witness :
    runStore initialStore c2Ops = some c2State ∧
    (c2State.activeView = c2State.activeArray ∧
     ∀ p : ℕ, p ∈ c2State.activeView ↔
       (specRun specInit c2Ops).active p = true) :=
  ⟨rfl, activeView_eq_specActive c2Ops c2State rfl⟩

/-- The velocity invariant of the particle store: every live disabled
dynamic particle has zero linear and angular velocity. -/
def VelocityInv (s : TPBDRigidsSOAsM) : Prop :=
  ∀ p ∈ s.handles, (s.dataMap p).isDynamic = true →
    (s.dataMap p).disabled = true →
    (s.dataMap p).v = Vec3.zero ∧ (s.dataMap p).w = Vec3.zero

/-- C8: every particle-store operation preserves the invariant that a
disabled dynamic particle has zero linear and angular velocity; and
`DisableParticle` on a dynamic particle sets its disabled flag, zeroes
`V` and `W`, and removes it from the active-particle set (and hence from
the active view). -/
theorem storeStep_velocityInv (s : TPBDRigidsSOAsM) (op : StoreOp)
    (s' : TPBDRigidsSOAsM) (hI : StoreInv s) (hv : VelocityInv s)
    (h : storeStep s op = some s') :
    VelocityInv s' ∧
    ∀ p : ℕ, op = StoreOp.disable p → (s.dataMap p).isDynamic = true →
      ((s'.dataMap p).disabled = true ∧ (s'.dataMap p).v = Vec3.zero ∧
       (s'.dataMap p).w = Vec3.zero ∧ p ∉ s'.activeArray ∧
       p ∉ s'.activeView) := by
  obtain ⟨hndl, hact, hlt, hsub, hdyn, hview⟩ := hI
  cases op with
  | createStatics n ps =>
    obtain rfl := Option.some_inj.mp h
    refine ⟨?_, fun p heq => by cases heq⟩
    intro p hp h1 h2
    by_cases hpn : p ∈ s.newIds n
    · have hdm : (TPBDRigidsSOAsM.createStaticParticles n ps s).dataMap p =
          ⟨EParticleKind.kindStatic, ps.bDisabled, ps.bStartSleeping,
           Vec3.zero, Vec3.zero⟩ := by
        simp only [TPBDRigidsSOAsM.createStaticParticles,
          TPBDRigidsSOAsM.updateViews, TPBDRigidsSOAsM.createHelperS,
          if_pos hpn]
      rw [hdm]
      exact ⟨rfl, rfl⟩
    · have hdm : (TPBDRigidsSOAsM.createStaticParticles n ps s).dataMap p =
          s.dataMap p := by
        simp only [TPBDRigidsSOAsM.createStaticParticles,
          TPBDRigidsSOAsM.updateViews, TPBDRigidsSOAsM.createHelperS,
          if_neg hpn]
      rw [hdm] at h1 h2 ⊢
      have hpl : p ∈ s.handles := by
        rcases List.mem_append.mp hp with hp | hp
        · exact hp
        · exact absurd hp hpn
      exact hv p hpl h1 h2
  | createKinematics n ps =>
    obtain rfl := Option.some_inj.mp h
    refine ⟨?_, fun p heq => by cases heq⟩
    intro p hp h1 h2
    by_cases hpn : p ∈ s.newIds n
    · have hdm : (TPBDRigidsSOAsM.createKinematicParticles n ps s).dataMap p =
          ⟨EParticleKind.kindKinematic, ps.bDisabled, ps.bStartSleeping,
           Vec3.zero, Vec3.zero⟩ := by
        simp only [TPBDRigidsSOAsM.createKinematicParticles,
          TPBDRigidsSOAsM.updateViews, TPBDRigidsSOAsM.createHelperS,
          if_pos hpn]
      rw [hdm]
      exact ⟨rfl, rfl⟩
    · have hdm : (TPBDRigidsSOAsM.createKinematicParticles n ps s).dataMap p =
          s.dataMap p := by
        simp only [TPBDRigidsSOAsM.createKinematicParticles,
          TPBDRigidsSOAsM.updateViews, TPBDRigidsSOAsM.createHelperS,
          if_neg hpn]
      rw [hdm] at h1 h2 ⊢
      have hpl : p ∈ s.handles := by
        rcases List.mem_append.mp hp with hp | hp
        · exact hp
        · exact absurd hp hpn
      exact hv p hpl h1 h2
  | createDynamics n ps =>
    obtain rfl := Option.some_inj.mp h
    refine ⟨?_, fun p heq => by cases heq⟩
    intro p hp h1 h2
    by_cases hpn : p ∈ s.newIds n
    · have hdm : (TPBDRigidsSOAsM.createDynamicParticles n ps s).dataMap p =
          ⟨EParticleKind.kindDynamic, ps.bDisabled, ps.bStartSleeping,
           Vec3.zero, Vec3.zero⟩ := by
        simp only [TPBDRigidsSOAsM.createDynamicParticles,
          TPBDRigidsSOAsM.updateViews, TPBDRigidsSOAsM.createHelperS,
          if_pos hpn]
      rw [hdm]
      exact ⟨rfl, rfl⟩
    · have hdm : (TPBDRigidsSOAsM.createDynamicParticles n ps s).dataMap p =
          s.dataMap p := by
        simp only [TPBDRigidsSOAsM.createDynamicParticles,
          TPBDRigidsSOAsM.updateViews, TPBDRigidsSOAsM.createHelperS,
          if_neg hpn]
      rw [hdm] at h1 h2 ⊢
      have hpl : p ∈ s.handles := by
        rcases List.mem_append.mp hp with hp | hp
        · exact hp
        · exact absurd hp hpn
      exact hv p hpl h1 h2
  | createClustereds n ps =>
    obtain rfl := Option.some_inj.mp h
    refine ⟨?_, fun p heq => by cases heq⟩
    intro p hp h1 h2
    by_cases hpn : p ∈ s.newIds n
    · have hdm : (TPBDRigidsSOAsM.createClusteredParticles n ps s).dataMap p =
          ⟨EParticleKind.kindClustered, ps.bDisabled, ps.bStartSleeping,
           Vec3.zero, Vec3.zero⟩ := by
        simp only [TPBDRigidsSOAsM.createClusteredParticles,
          TPBDRigidsSOAsM.updateViews, TPBDRigidsSOAsM.createHelperS,
          if_pos hpn]
      rw [hdm]
      exact ⟨rfl, rfl⟩
    · have hdm : (TPBDRigidsSOAsM.createClusteredParticles n ps s).dataMap p =
          s.dataMap p := by
        simp only [TPBDRigidsSOAsM.createClusteredParticles,
          TPBDRigidsSOAsM.updateViews, TPBDRigidsSOAsM.createHelperS,
          if_neg hpn]
      rw [hdm] at h1 h2 ⊢
      have hpl : p ∈ s.handles := by
        rcases List.mem_append.mp hp with hp | hp
        · exact hp
        · exact absurd hp hpn
      exact hv p hpl h1 h2
  | destroy p0 =>
    simp only [storeStep] at h
    split_ifs at h with hpl
    simp only [TPBDRigidsSOAsM.destroyParticle] at h
    by_cases hcl : (s.dataMap p0).isClustered = true
    · rw [if_pos hcl] at h
      exact absurd h (by simp)
    · rw [if_neg hcl] at h
      obtain rfl := Option.some_inj.mp h
      refine ⟨?_, fun p heq => by cases heq⟩
      intro p hp h1 h2
      exact hv p (removeIdx_subset hp) h1 h2
  | enable p0 =>
    simp only [storeStep] at h
    split_ifs at h with hpl
    obtain rfl := Option.some_inj.mp h
    refine ⟨?_, fun p heq => by cases heq⟩
    intro p hp h1 h2
    by_cases hdynp : (s.dataMap p0).isDynamic = true
    · have hdm : (TPBDRigidsSOAsM.enableParticle p0 s).dataMap = fun q =>
          if q = p0 then { s.dataMap p0 with disabled := false }
          else s.dataMap q := by
        simp only [TPBDRigidsSOAsM.enableParticle, if_pos hdynp]
        rfl
      have hhh : (TPBDRigidsSOAsM.enableParticle p0 s).handles = s.handles := by
        simp only [TPBDRigidsSOAsM.enableParticle, if_pos hdynp]
        rfl
      rw [hdm] at h1 h2 ⊢
      rw [hhh] at hp
      dsimp only at h1 h2 ⊢
      by_cases hqp : p = p0
      · subst hqp
        rw [if_pos rfl] at h2
        exact absurd h2 (by simp)
      · rw [if_neg hqp] at h1 h2 ⊢
        exact hv p hp h1 h2
    · have hdm : (TPBDRigidsSOAsM.enableParticle p0 s).dataMap = fun q =>
          if q = p0 then { s.dataMap p0 with disabled := false }
          else s.dataMap q := by
        simp only [TPBDRigidsSOAsM.enableParticle, if_neg hdynp]
        rfl
      have hhh : (TPBDRigidsSOAsM.enableParticle p0 s).handles = s.handles := by
        simp only [TPBDRigidsSOAsM.enableParticle, if_neg hdynp]
        rfl
      rw [hdm] at h1 h2 ⊢
      rw [hhh] at hp
      dsimp only at h1 h2 ⊢
      by_cases hqp : p = p0
      · subst hqp
        rw [if_pos rfl] at h2
        exact absurd h2 (by simp)
      · rw [if_neg hqp] at h1 h2 ⊢
        exact hv p hp h1 h2
  | disable p0 =>
    simp only [storeStep] at h
    split_ifs at h with hpl
    obtain rfl := Option.some_inj.mp h
    by_cases hdynp : (s.dataMap p0).isDynamic = true
    · have hdm : (TPBDRigidsSOAsM.disableParticle p0 s).dataMap = fun q =>
          if q = p0 then
            { s.dataMap p0 with disabled := true, v := Vec3.zero, w := Vec3.zero }
          else s.dataMap q := by
        simp only [TPBDRigidsSOAsM.disableParticle, if_pos hdynp]
        rfl
      have hhh : (TPBDRigidsSOAsM.disableParticle p0 s).handles = s.handles := by
        simp only [TPBDRigidsSOAsM.disableParticle, if_pos hdynp]
        rfl
      have hAA : (TPBDRigidsSOAsM.disableParticle p0 s).activeArray =
          removeIdx p0 s.activeArray := by
        simp only [TPBDRigidsSOAsM.disableParticle, if_pos hdynp]
        rfl
      have hVV : (TPBDRigidsSOAsM.disableParticle p0 s).activeView =
          removeIdx p0 s.activeArray := by
        simp only [TPBDRigidsSOAsM.disableParticle, if_pos hdynp]
        rfl
      constructor
      · intro p hp h1 h2
        rw [hdm] at h1 h2 ⊢
        rw [hhh] at hp
        dsimp only at h1 h2 ⊢
        by_cases hqp : p = p0
        · subst hqp
          rw [if_pos rfl]
          exact ⟨rfl, rfl⟩
        · rw [if_neg hqp] at h1 h2 ⊢
          exact hv p hp h1 h2
      · intro p heq hdynq
        cases heq
        have hnotmem : p0 ∉ removeIdx p0 s.activeArray := by
          intro hmem
          exact absurd ((mem_removeIdx_iff hact p0).mp hmem).2 (by simp)
        refine ⟨?_, ?_, ?_, ?_, ?_⟩
        · rw [hdm]
          dsimp only
          rw [if_pos rfl]
        · rw [hdm]
          dsimp only
          rw [if_pos rfl]
        · rw [hdm]
          dsimp only
          rw [if_pos rfl]
        · rw [hAA]
          exact hnotmem
        · rw [hVV]
          exact hnotmem
    · constructor
      · intro p hp h1 h2
        have hdm : (TPBDRigidsSOAsM.disableParticle p0 s).dataMap = fun q =>
            if q = p0 then { s.dataMap p0 with disabled := true }
            else s.dataMap q := by
          simp only [TPBDRigidsSOAsM.disableParticle, if_neg hdynp]
          rfl
        have hhh : (TPBDRigidsSOAsM.disableParticle p0 s).handles
            = s.handles := by
          simp only [TPBDRigidsSOAsM.disableParticle, if_neg hdynp]
          rfl
        rw [hdm] at h1 h2 ⊢
        rw [hhh] at hp
        dsimp only at h1 h2 ⊢
        by_cases hqp : p = p0
        · subst hqp
          rw [if_pos rfl] at h1
          have : (s.dataMap p).isDynamic = true := h1
          exact absurd this hdynp
        · rw [if_neg hqp] at h1 h2 ⊢
          exact hv p hp h1 h2
      · intro p heq hdynq
        cases heq
        exact absurd hdynq hdynp
  | activate p0 =>
    simp only [storeStep] at h
    split_ifs at h with hpl
    simp only [TPBDRigidsSOAsM.activateParticle] at h
    by_cases hdynp : (s.dataMap p0).isDynamic = true
    · rw [if_pos hdynp] at h
      by_cases hdis : (s.dataMap p0).disabled = true
      · rw [if_pos hdis] at h
        exact absurd h (by simp)
      · rw [if_neg hdis] at h
        obtain rfl := Option.some_inj.mp h
        exact ⟨fun p hp h1 h2 => hv p hp h1 h2, fun p heq => by cases heq⟩
    · rw [if_neg hdynp] at h
      obtain rfl := Option.some_inj.mp h
      exact ⟨fun p hp h1 h2 => hv p hp h1 h2, fun p heq => by cases heq⟩
  | deactivate p0 =>
    simp only [storeStep] at h
    split_ifs at h with hpl
    simp only [TPBDRigidsSOAsM.deactivateParticle] at h
    by_cases hdynp : (s.dataMap p0).isDynamic = true
    · rw [if_pos hdynp] at h
      by_cases hdis : (s.dataMap p0).disabled = true
      · rw [if_pos hdis] at h
        exact absurd h (by simp)
      · rw [if_neg hdis] at h
        obtain rfl := Option.some_inj.mp h
        exact ⟨fun p hp h1 h2 => hv p hp h1 h2, fun p heq => by cases heq⟩
    · rw [if_neg hdynp] at h
      obtain rfl := Option.some_inj.mp h
      exact ⟨fun p hp h1 h2 => hv p hp h1 h2, fun p heq => by cases heq⟩

end Chaos

namespace Chaos

/-- A store holding one enabled, awake, non-clustered dynamic particle
with id 0. -/
def c8State : TPBDRigidsSOAsM :=
  ⟨1, fun _ => ⟨EParticleKind.kindDynamic, false, false, Vec3.zero, Vec3.zero⟩,
   [0], [0], [], [], [0]⟩

theorem c8State_inv : StoreInv c8State := by
  refine ⟨?_, ?_, ?_, ?_, ?_, rfl⟩
  · simp [c8State]
  · simp [c8State]
  · intro p hp
    simp [c8State] at hp
    simp [hp, c8State]
  · intro p hp
    exact hp
  · intro p hp
    rfl

theorem c8State_vel : VelocityInv c8State := by
  intro p hp h1 h2
  exact absurd h2 (by simp [c8State])

/-- C8 witness: the invariant preservation and the `DisableParticle`
behavior instantiated at a store holding one enabled dynamic particle,
disabling it. -/
theorem storeStep_velocityInv_witness :
    StoreInv c8State ∧ VelocityInv c8State ∧
    storeStep c8State (StoreOp.disable 0) =
      some (TPBDRigidsSOAsM.disableParticle 0 c8State) ∧
    (VelocityInv (TPBDRigidsSOAsM.disableParticle 0 c8State) ∧
     ∀ p : ℕ, StoreOp.disable 0 = StoreOp.disable p →
       (c8State.dataMap p).isDynamic = true →
       (((TPBDRigidsSOAsM.disableParticle 0 c8State).dataMap p).disabled = true ∧
        ((TPBDRigidsSOAsM.disableParticle 0 c8State).dataMap p).v = Vec3.zero ∧
        ((TPBDRigidsSOAsM.disableParticle 0 c8State).dataMap p).w = Vec3.zero ∧
        p ∉ (TPBDRigidsSOAsM.disableParticle 0 c8State).activeArray ∧
        p ∉ (TPBDRigidsSOAsM.disableParticle 0 c8State).activeView)) :=
  ⟨c8State_inv, c8State_vel, rfl,
   storeStep_velocityInv c8State (StoreOp.disable 0)
     (TPBDRigidsSOAsM.disableParticle 0 c8State) c8State_inv c8State_vel rfl⟩

/-- C10: `DestroyParticle` supports only non-clustered particles.  When
it succeeds, the destroyed particle was not clustered, it is removed
from the active-particle index when dynamic, its handle is destroyed by
swap-with-last compaction of the handle array (the surviving handles are
exactly the other live handles, as a permutation of the erased array),
and the derived views are refreshed; on a live clustered particle the
operation is a failed assertion. -/
theorem destroyParticle_spec (s : TPBDRigidsSOAsM) (p : ℕ)
    (s' : TPBDRigidsSOAsM) (hI : StoreInv s)
    (h : storeStep s (StoreOp.destroy p) = some s') :
    (s.dataMap p).isClustered = false ∧
    p ∉ s'.handles ∧
    (∀ q : ℕ, q ∈ s'.handles ↔ (q ∈ s.handles ∧ q ≠ p)) ∧
    s'.handles.Perm (s.handles.erase p) ∧
    ((s.dataMap p).isDynamic = true → p ∉ s'.activeArray) ∧
    s'.activeView = s'.activeArray ∧
    (∀ q : ℕ, (s.dataMap q).isClustered = true → q ∈ s.handles →
      storeStep s (StoreOp.destroy q) = none) := by
  obtain ⟨hndl, hact, hlt, hsub, hdyn, hview⟩ := hI
  simp only [storeStep] at h
  split_ifs at h with hpl
  simp only [TPBDRigidsSOAsM.destroyParticle] at h
  by_cases hcl : (s.dataMap p).isClustered = true
  · rw [if_pos hcl] at h
    exact absurd h (by simp)
  · rw [if_neg hcl] at h
    obtain rfl := Option.some_inj.mp h
    have hHH : (TPBDRigidsSOAsM.updateViews
        { s with
          activeArray := if (s.dataMap p).isDynamic = true then
              removeIdx p s.activeArray else s.activeArray,
          handles := removeIdx p s.handles }).handles =
        removeIdx p s.handles := rfl
    refine ⟨by simpa using hcl, ?_, ?_, ?_, ?_, rfl, ?_⟩
    · rw [hHH]
      intro hmem
      exact absurd ((mem_removeIdx_iff hndl p).mp hmem).2 (by simp)
    · intro q
      rw [hHH]
      exact mem_removeIdx_iff hndl q
    · rw [hHH]
      exact removeIdx_perm_erase hpl
    · intro hdynp
      show p ∉ (if (s.dataMap p).isDynamic = true then
          removeIdx p s.activeArray else s.activeArray)
      rw [if_pos hdynp]
      intro hmem
      exact absurd ((mem_removeIdx_iff hact p).mp hmem).2 (by simp)
    · intro q hclq hql
      simp [storeStep, TPBDRigidsSOAsM.destroyParticle, hql, hclq]

/-- The store after destroying the particle of `c8State`. -/
def c10State : TPBDRigidsSOAsM :=
  (TPBDRigidsSOAsM.destroyParticle 0 c8State).getD initialStore

/-- C10 witness: destroying the dynamic particle of `c8State`. -/
theorem destroyParticle_spec_witness :
    StoreInv c8State ∧
    storeStep c8State (StoreOp.destroy 0) = some c10State ∧
    ((c8State.dataMap 0).isClustered = false ∧
     0 ∉ c10State.handles ∧
     (∀ q : ℕ, q ∈ c10State.handles ↔ (q ∈ c8State.handles ∧ q ≠ 0)) ∧
     c10State.handles.Perm (c8State.handles.erase 0) ∧
     ((c8State.dataMap 0).isDynamic = true → 0 ∉ c10State.activeArray) ∧
     c10State.activeView = c10State.activeArray ∧
     (∀ q : ℕ, (c8State.dataMap q).isClustered = true →
       q ∈ c8State.handles → storeStep c8State (StoreOp.destroy q) = none)) :=
  ⟨c8State_inv, rfl,
   destroyParticle_spec c8State 0 c10State c8State_inv rfl⟩

end Chaos
